import Mathlib

/-!
Shallow embedding of the FlowNode WebAssembly node-graph image editor
(`src/image_data.rs`, `src/nodes.rs`, `src/graph.rs`, `src/executor.rs`).

Modelling conventions:
* `u8` pixel bytes are `ℕ` (with `≤ 255` hypotheses where byte-range matters);
  `u32`/`u64`/`usize` are `ℕ`; `i32` is `ℤ`; `Uuid` is `ℕ`.
* `f32` slider/parameter arithmetic is idealised as exact `ℚ` arithmetic.
  The transcendental library calls (`exp2`, `powf`, `sin`, `cos`, `sqrt`,
  `std::f32::consts::PI`) are abstracted as the fields of a `FloatOps`
  structure that every kernel takes as a parameter.
* Rust `HashMap`s are association lists; iteration order of a map is the
  list order (one arbitrary-but-fixed order of the Rust `HashMap`).
* Rust float→int `as` casts truncate toward zero (`truncQ`); int→int
  narrowing casts wrap (`% 256`).
* The in-place pixel loops of `executor.rs` write each output byte at most
  once from values of the pre-pass buffer, so they are rendered as pure
  per-chunk / per-coordinate maps; the block-grain kernel, whose RNG state
  is threaded sequentially through the blocks, is rendered as a fold.
-/

/-- Clamp a rational to an interval (`f32::clamp`, `i32::clamp`). -/
def clampQ (x lo hi : ℚ) : ℚ := max lo (min x hi)

/-- Clamp an integer to an interval (`i32::clamp`). -/
def clampZ (x lo hi : ℤ) : ℤ := max lo (min x hi)

/-- Truncation toward zero of a rational: the value of a Rust `as i32`
(or, after `.toNat`, `as u32`) cast of an f32. -/
def truncQ (q : ℚ) : ℤ := if q < 0 then -((-q).floor) else q.floor

/-- Rust `as u32` cast of a (possibly negative) f32: saturates at 0. -/
def ratToU32 (q : ℚ) : ℕ := (truncQ q).toNat

/-- `(x.clamp(0.0, 1.0) * 255.0) as u8` — the 8-bit requantisation used by
`apply_adjustments`. -/
def q255 (x : ℚ) : ℕ := (truncQ (clampQ x 0 1 * 255)).toNat

/-- `(x).clamp(0.0, 255.0) as u8` — byte clamp used by the other kernels. -/
def clampByte (x : ℚ) : ℕ := (truncQ (clampQ x 0 255)).toNat

/-- Abstraction of the f32 transcendental library functions used by
`executor.rs`. Kernels are parametric in these. -/
structure FloatOps where
  exp2 : ℚ → ℚ
  pow : ℚ → ℚ → ℚ
  sin : ℚ → ℚ
  cos : ℚ → ℚ
  sqrt : ℚ → ℚ
  pi : ℚ

/-- Raw RGBA image data (`ImageData` of `src/image_data.rs`): a byte list of
length `width * height * 4`, row-major, interleaved R,G,B,A. -/
structure ImageData where
  pixels : List ℕ
  width : ℕ
  height : ℕ
deriving Repr, DecidableEq

/-- `pixels.chunks_exact_mut(4)` with a per-chunk rewrite: applies `f` to
each complete 4-byte chunk, leaving a trailing fragment (never present for
well-formed images) unchanged. -/
def mapChunks4 (f : ℕ → ℕ → ℕ → ℕ → List ℕ) : List ℕ → List ℕ
  | a :: b :: c :: d :: rest => f a b c d ++ mapChunks4 f rest
  | rest => rest

/-- The per-pixel body of `Executor::apply_adjustments` (lines 289–347 of
`src/executor.rs`), on channel values already divided by 255; returns the
pre-quantisation channel triple. -/
def adjust_pixel (F : FloatOps)
    (brightness contrast saturation exposure highlights shadows
      temperature tint vibrance gamma : ℚ) (r0 g0 b0 : ℚ) : ℚ × ℚ × ℚ :=
  let brightness_factor := brightness / 100
  let contrast_factor := 1 + contrast / 100
  let saturation_factor := 1 + saturation / 100
  let exposure_factor := F.exp2 (exposure / 50)
  let gamma_value := 1 / max (1 + gamma / 100) 0.1
  let temp_shift := temperature / 100
  let tint_shift := tint / 100
  let vibrance_factor := vibrance / 100
  -- Exposure
  let r := r0 * exposure_factor
  let g := g0 * exposure_factor
  let b := b0 * exposure_factor
  -- Temperature (shift R/B balance)
  let r := r + temp_shift * 0.1
  let b := b - temp_shift * 0.1
  -- Tint (shift G/M balance)
  let g := g + tint_shift * 0.05
  -- Brightness
  let r := r + brightness_factor
  let g := g + brightness_factor
  let b := b + brightness_factor
  -- Contrast
  let r := (r - 0.5) * contrast_factor + 0.5
  let g := (g - 0.5) * contrast_factor + 0.5
  let b := (b - 0.5) * contrast_factor + 0.5
  -- Saturation
  let luminance := 0.299 * r + 0.587 * g + 0.114 * b
  let r := luminance + (r - luminance) * saturation_factor
  let g := luminance + (g - luminance) * saturation_factor
  let b := luminance + (b - luminance) * saturation_factor
  -- Vibrance (saturation that affects less saturated colors more)
  let max_rgb := max (max r g) b
  let min_rgb := min (min r g) b
  let current_sat := if 0 < max_rgb then (max_rgb - min_rgb) / max_rgb else 0
  let vib_mult := 1 + vibrance_factor * (1 - current_sat)
  let r := luminance + (r - luminance) * vib_mult
  let g := luminance + (g - luminance) * vib_mult
  let b := luminance + (b - luminance) * vib_mult
  -- Highlights/Shadows (simplified)
  let hs :=
    if 0.5 < luminance then
      let highlight_factor := (luminance - 0.5) * 2 * (highlights / 200)
      (r + highlight_factor, g + highlight_factor, b + highlight_factor)
    else
      let shadow_factor := (0.5 - luminance) * 2 * (shadows / 200)
      (r + shadow_factor, g + shadow_factor, b + shadow_factor)
  -- Gamma
  let r := F.pow (max hs.1 0) gamma_value
  let g := F.pow (max hs.2.1 0) gamma_value
  let b := F.pow (max hs.2.2 0) gamma_value
  (r, g, b)

/-- `Executor::apply_adjustments` (lines 263–356 of `src/executor.rs`). -/
def apply_adjustments (F : FloatOps) (img : ImageData)
    (brightness contrast saturation exposure highlights shadows
      temperature tint vibrance gamma : ℚ) : ImageData :=
  { pixels :=
      mapChunks4
        (fun pr pg pb pa =>
          let rgb := adjust_pixel F brightness contrast saturation exposure
            highlights shadows temperature tint vibrance gamma
            ((pr : ℚ) / 255) ((pg : ℚ) / 255) ((pb : ℚ) / 255)
          [q255 rgb.1, q255 rgb.2.1, q255 rgb.2.2, pa])
        img.pixels
    width := img.width
    height := img.height }

/-- Nested row/pixel rendering: models a double `for y { for x { ... } }`
loop writing one 4-byte chunk per coordinate into a fresh buffer. -/
def renderPixels (w h : ℕ) (f : ℕ → ℕ → List ℕ) : List ℕ :=
  ((List.range h).map (fun y => ((List.range w).map (fun x => f x y)).flatten)).flatten

/-- Inclusive integer range `lo..=hi` of a Rust `for` loop. -/
def rangeZ (lo hi : ℤ) : List ℤ :=
  (List.range (hi + 1 - lo).toNat).map (fun i : ℕ => lo + (i : ℤ))

/-- The pixel-buffer index `((y * width + x) * 4) as usize` used throughout
`executor.rs`. -/
def pix_idx (width y x : ℤ) : ℕ := ((y * width + x) * 4).toNat

/-- Channel average `(sum / count) as u8` over a list of sample base
indices (`u32` arithmetic; the `as u8` narrowing is `% 256`). -/
def blur_avg (src : List ℕ) (idxs : List ℕ) (off : ℕ) : ℕ :=
  ((idxs.map (fun i => src.getD (i + off) 0)).sum / idxs.length) % 256

/-- Sample indices of the horizontal blur pass at `(x, y)`:
`dx ∈ -r..=r`, `sx = (x + dx).clamp(0, width - 1)`. -/
def blur_h_idxs (width r : ℤ) (x y : ℕ) : List ℕ :=
  (rangeZ (-r) r).map (fun dx =>
    pix_idx width (y : ℤ) (clampZ ((x : ℤ) + dx) 0 (width - 1)))

/-- Sample indices of the vertical blur pass at `(x, y)`. -/
def blur_v_idxs (width height r : ℤ) (x y : ℕ) : List ℕ :=
  (rangeZ (-r) r).map (fun dy =>
    pix_idx width (clampZ ((y : ℤ) + dy) 0 (height - 1)) (x : ℤ))

/-- `Executor::apply_blur` (lines 359–419): separable box blur, horizontal
then vertical pass, clamp-to-edge sampling; alpha bytes are never written,
so they keep the value of the cloned input buffer. -/
def apply_blur (img : ImageData) (radius : ℕ) : ImageData :=
  if radius = 0 then img
  else
    let r : ℤ := (min radius 50 : ℕ)
    let width : ℤ := (img.width : ℤ)
    let height : ℤ := (img.height : ℤ)
    let temp := renderPixels img.width img.height (fun x y =>
      let idxs := blur_h_idxs width r x y
      [blur_avg img.pixels idxs 0, blur_avg img.pixels idxs 1,
       blur_avg img.pixels idxs 2,
       img.pixels.getD (pix_idx width (y : ℤ) (x : ℤ) + 3) 0])
    let output := renderPixels img.width img.height (fun x y =>
      let idxs := blur_v_idxs width height r x y
      [blur_avg temp idxs 0, blur_avg temp idxs 1, blur_avg temp idxs 2,
       img.pixels.getD (pix_idx width (y : ℤ) (x : ℤ) + 3) 0])
    { pixels := output, width := img.width, height := img.height }

/-- One channel of the unsharp mask:
`(original + amount * (original - blur)).clamp(0.0, 255.0) as u8`. -/
def sharpen_byte (amount : ℚ) (o bl : ℕ) : ℕ :=
  clampByte ((o : ℚ) + amount * ((o : ℚ) - (bl : ℚ)))

/-- The sharpen loop (`for i in (0..output.len()).step_by(4)`, `c in 0..3`)
walking the original and the blurred buffer in lockstep. -/
def sharpenChunks (amount : ℚ) : List ℕ → List ℕ → List ℕ
  | a :: b :: c :: d :: rest, a' :: b' :: c' :: _ :: rest' =>
      [sharpen_byte amount a a', sharpen_byte amount b b',
       sharpen_byte amount c c', d] ++ sharpenChunks amount rest rest'
  | rest, _ => rest

/-- `Executor::apply_sharpen` (lines 422–438): unsharp mask against a
radius-1 box blur. -/
def apply_sharpen (img : ImageData) (amount : ℚ) : ImageData :=
  { pixels := sharpenChunks amount img.pixels (apply_blur img 1).pixels
    width := img.width, height := img.height }

/-- The in-bounds sample points of `apply_directional_blur` at `(x, y)`:
`2*samples+1` points along the direction, keeping only those inside the
image (out-of-bounds samples are excluded from sum and count). -/
def dir_samples (width height : ℤ) (dxq dyq : ℚ) (samples : ℤ) (x y : ℕ) :
    List (ℤ × ℤ) :=
  ((rangeZ (-samples) samples).map (fun i : ℤ =>
    (truncQ ((x : ℚ) + dxq * (i : ℚ)), truncQ ((y : ℚ) + dyq * (i : ℚ))))).filter
    (fun p => decide (0 ≤ p.1 ∧ p.1 < width ∧ 0 ≤ p.2 ∧ p.2 < height))

/-- `Executor::apply_directional_blur` (lines 510–551): samples `2N+1`
points along the angle direction, averaging in-bounds samples only.
`cos`/`sin`/π of the source are taken from the abstract `FloatOps`. -/
def apply_directional_blur (F : FloatOps) (img : ImageData) (amount angle : ℚ) :
    ImageData :=
  let width : ℤ := (img.width : ℤ)
  let height : ℤ := (img.height : ℤ)
  let angle_rad := angle * F.pi / 180
  let dx := F.cos angle_rad
  let dy := F.sin angle_rad
  let samples : ℤ := truncQ (max (amount * 20) 1)
  let output := renderPixels img.width img.height (fun x y =>
    let inb := dir_samples width height dx dy samples x y
    let idxs := inb.map (fun p => pix_idx width p.2 p.1)
    let count : ℚ := (idxs.length : ℚ)
    [clampByte (((idxs.map (fun i => ((img.pixels.getD i 0 : ℕ) : ℚ))).sum) / count),
     clampByte (((idxs.map (fun i => ((img.pixels.getD (i + 1) 0 : ℕ) : ℚ))).sum) / count),
     clampByte (((idxs.map (fun i => ((img.pixels.getD (i + 2) 0 : ℕ) : ℚ))).sum) / count),
     img.pixels.getD (pix_idx width (y : ℤ) (x : ℤ) + 3) 0])
  { pixels := output, width := img.width, height := img.height }

/-- `BlurDirection` of `src/nodes.rs`. -/
inductive BlurDirection where
  | top
  | bottom
  | left
  | right
deriving Repr, DecidableEq

/-- The sample square of `apply_progressive_blur` at `(x, y)` for a given
per-pixel radius, clamp-to-edge. -/
def prog_idxs (width height radius : ℤ) (x y : ℕ) : List ℕ :=
  ((rangeZ (-radius) radius).map (fun dy =>
    (rangeZ (-radius) radius).map (fun dx =>
      pix_idx width (clampZ ((y : ℤ) + dy) 0 (height - 1))
        (clampZ ((x : ℤ) + dx) 0 (width - 1))))).flatten

/-- `Executor::apply_progressive_blur` (lines 554–605): per-pixel box blur
whose radius varies with position along the chosen direction. -/
def apply_progressive_blur (F : FloatOps) (img : ImageData) (amount : ℚ)
    (direction : BlurDirection) (falloff : ℚ) : ImageData :=
  let width := img.width
  let height := img.height
  let max_radius : ℕ := ratToU32 (amount * 25)
  let output := renderPixels width height (fun x y =>
    let factor : ℚ :=
      match direction with
      | .top => 1 - (y : ℚ) / (height : ℚ)
      | .bottom => (y : ℚ) / (height : ℚ)
      | .left => 1 - (x : ℚ) / (width : ℚ)
      | .right => (x : ℚ) / (width : ℚ)
    let blur_factor := F.pow (min (factor / max falloff 0.01) 1) 2
    let radius : ℤ := truncQ (blur_factor * (max_radius : ℚ))
    let base := pix_idx (width : ℤ) (y : ℤ) (x : ℤ)
    if 0 < radius then
      let idxs := prog_idxs (width : ℤ) (height : ℤ) radius x y
      [blur_avg img.pixels idxs 0, blur_avg img.pixels idxs 1,
       blur_avg img.pixels idxs 2, img.pixels.getD (base + 3) 0]
    else
      [img.pixels.getD base 0, img.pixels.getD (base + 1) 0,
       img.pixels.getD (base + 2) 0, img.pixels.getD (base + 3) 0])
  { pixels := output, width := img.width, height := img.height }

/-- `Executor::apply_glass_blinds` (lines 608–639): sinusoidal source-
coordinate warp. The unused local f32 copies of width/height in the source
are dropped. -/
def apply_glass_blinds (F : FloatOps) (img : ImageData)
    (intensity frequency angle phase : ℚ) : ImageData :=
  let angle_rad := angle * F.pi / 180
  let cos_a := F.cos angle_rad
  let sin_a := F.sin angle_rad
  let output := renderPixels img.width img.height (fun x y =>
    let rx : ℚ := (x : ℚ) * cos_a + (y : ℚ) * sin_a
    let wave : ℤ := truncQ (F.sin (rx * frequency / 100 + phase * F.pi * 2) * intensity * 20)
    let sx := clampZ ((x : ℤ) - truncQ ((wave : ℚ) * sin_a)) 0 ((img.width : ℤ) - 1)
    let sy := clampZ ((y : ℤ) + truncQ ((wave : ℚ) * cos_a)) 0 ((img.height : ℤ) - 1)
    let src_idx := pix_idx (img.width : ℤ) sy sx
    [img.pixels.getD src_idx 0, img.pixels.getD (src_idx + 1) 0,
     img.pixels.getD (src_idx + 2) 0,
     img.pixels.getD (pix_idx (img.width : ℤ) (y : ℤ) (x : ℤ) + 3) 0])
  { pixels := output, width := img.width, height := img.height }

/-- `Executor::apply_vignette` (lines 472–507): radial falloff; touches
only channels 0..3 (exclusive), so alpha is preserved. -/
def apply_vignette (F : FloatOps) (img : ImageData)
    (intensity roundness smoothness : ℚ) : ImageData :=
  let width : ℚ := (img.width : ℚ)
  let height : ℚ := (img.height : ℚ)
  let cx := width / 2
  let cy := height / 2
  let max_dist := F.sqrt (cx * cx + cy * cy)
  let aspect := width / height
  let x_scale := 1 + (1 - roundness) * |aspect - 1|
  let output := renderPixels img.width img.height (fun x y =>
    let dxq := ((x : ℚ) - cx) / x_scale
    let dyq := (y : ℚ) - cy
    let dist := F.sqrt (dxq * dxq + dyq * dyq) / max_dist
    let falloff_start := 0.3 + smoothness * 0.4
    let vig :=
      if dist < falloff_start then 1
      else
        let t := (dist - falloff_start) / (1 - falloff_start)
        1 - F.pow t (2 - smoothness) * intensity
    let base := pix_idx (img.width : ℤ) (y : ℤ) (x : ℤ)
    [clampByte ((img.pixels.getD base 0 : ℚ) * vig),
     clampByte ((img.pixels.getD (base + 1) 0 : ℚ) * vig),
     clampByte ((img.pixels.getD (base + 2) 0 : ℚ) * vig),
     img.pixels.getD (base + 3) 0])
  { pixels := output, width := img.width, height := img.height }

/-- The linear-congruential RNG step of `apply_grain_advanced`:
`rng_state.wrapping_mul(1103515245).wrapping_add(12345)` on `u32`. -/
def lcg (s : ℕ) : ℕ := (s * 1103515245 + 12345) % 4294967296

/-- `((rng_state >> 16) & 0xFF) as f32 / 255.0 - 0.5`. -/
def grain_noise_val (s : ℕ) : ℚ := (((s / 65536) % 256 : ℕ) : ℚ) / 255 - 0.5

/-- The three channel writes of one grain pixel:
`output[idx+c] = (output[idx+c] as f32 + n).clamp(0.0, 255.0) as u8`. -/
def set3 (out : List ℕ) (idx : ℕ) (nr ng nb : ℚ) : List ℕ :=
  let v0 := clampByte ((out.getD idx 0 : ℚ) + nr)
  let v1 := clampByte ((out.getD (idx + 1) 0 : ℚ) + ng)
  let v2 := clampByte ((out.getD (idx + 2) 0 : ℚ) + nb)
  ((out.set idx v0).set (idx + 1) v1).set (idx + 2) v2

/-- `(0..n).step_by(step)` for `step ≥ 1`. -/
def stepRange (n step : ℕ) : List ℕ :=
  (List.range ((n + step - 1) / step)).map (· * step)

/-- Block start coordinates, in source iteration order (`by` outer,
`bx` inner). -/
def grain_blocks (w h bs : ℕ) : List (ℕ × ℕ) :=
  (stepRange h bs).flatMap (fun yb => (stepRange w bs).map (fun xb => (yb, xb)))

/-- Apply one noise triple to all in-bounds pixels of a block. -/
def grain_apply_block (w h bs yb xb : ℕ) (nr ng nb : ℚ) (out : List ℕ) : List ℕ :=
  ((List.range bs).flatMap (fun dy => (List.range bs).map (fun dx => (yb + dy, xb + dx)))).foldl
    (fun acc p => if p.2 < w ∧ p.1 < h then set3 acc ((p.1 * w + p.2) * 4) nr ng nb else acc)
    out

/-- One iteration of the block loop of `apply_grain_advanced`: advance the
RNG, derive the (mono or per-channel) noise, and write the block. -/
def grain_step (w h bs : ℕ) (amount : ℚ) (monochrome : Bool)
    (st : ℕ × List ℕ) (blk : ℕ × ℕ) : ℕ × List ℕ :=
  let rng1 := lcg st.1
  let noise := grain_noise_val rng1 * 2 * amount * 50
  if monochrome then
    (rng1, grain_apply_block w h bs blk.1 blk.2 noise noise noise st.2)
  else
    let rng2 := lcg rng1
    let nr := grain_noise_val rng2
    let rng3 := lcg rng2
    let ng := grain_noise_val rng3
    let rng4 := lcg rng3
    let nb := grain_noise_val rng4
    (rng4, grain_apply_block w h bs blk.1 blk.2
      (nr * 2 * amount * 50) (ng * 2 * amount * 50) (nb * 2 * amount * 50) st.2)

/-- `Executor::apply_grain_advanced` (lines 642–690): block-quantised LCG
noise, seeded by `seed.wrapping_add(12345)`. -/
def apply_grain_advanced (img : ImageData) (amount size : ℚ)
    (monochrome : Bool) (seed : ℕ) : ImageData :=
  let rng_state := (seed + 12345) % 4294967296
  let block_size := ratToU32 (max size 1)
  let res := (grain_blocks img.width img.height block_size).foldl
    (grain_step img.width img.height block_size amount monochrome)
    (rng_state, img.pixels)
  { pixels := res.2, width := img.width, height := img.height }

/-- `NodeType` of `src/nodes.rs` (the full closed enumeration). -/
inductive NodeType where
  | image
  | content
  | bucket
  | adjust
  | effects
  | text
  | concat
  | splitter
  | postit
  | compare
  | composition
  | router
  | batch
  | title
  | group
  | folder
  | convertor
  | omni
  | llm
  | video
  | upscaler
  | vector
  | rodin3d
  | mindMap
deriving Repr, DecidableEq

/-- The ten slider fields of `NodeProperties::Adjust` read by the executor
(the color-wheel / curve / boost fields of the source are never read by
`execute_node` and are omitted from the embedding). -/
structure AdjustParams where
  brightness : ℚ
  contrast : ℚ
  saturation : ℚ
  exposure : ℚ
  highlights : ℚ
  shadows : ℚ
  temperature : ℚ
  tint : ℚ
  vibrance : ℚ
  gamma : ℚ
deriving Repr, DecidableEq

/-- The fields of `NodeProperties::Effects` (all read by the executor). -/
structure EffectsParams where
  gaussian_blur : ℚ
  directional_blur : ℚ
  directional_blur_angle : ℚ
  progressive_blur : ℚ
  progressive_blur_direction : BlurDirection
  progressive_blur_falloff : ℚ
  glass_blinds : ℚ
  glass_blinds_frequency : ℚ
  glass_blinds_angle : ℚ
  glass_blinds_phase : ℚ
  grain : ℚ
  grain_size : ℚ
  grain_monochrome : Bool
  grain_seed : ℕ
  sharpen : ℚ
  vignette : ℚ
  vignette_roundness : ℚ
  vignette_smoothness : ℚ
deriving Repr, DecidableEq

/-- `NodeProperties` of `src/nodes.rs`, restricted to the payloads the
executor reads. `Image`'s url/thumbnail/history fields are unused by
`execute_node`; every variant the executor's `_ => NodeOutput::None` arm
covers is collapsed into `other`. -/
inductive NodeProperties where
  | imageProps (texture_id : Option ℕ)
  | content
  | bucket
  | adjust (p : AdjustParams)
  | effects (p : EffectsParams)
  | text (text : String)
  | concat (separator : String)
  | compare
  | other
deriving Repr, DecidableEq

/-- `Node` of `src/nodes.rs`; `position` and `label` are layout-only and
never read by the executor, so they are omitted. -/
structure Node where
  id : ℕ
  node_type : NodeType
  properties : NodeProperties
deriving Repr, DecidableEq

/-- `Connection` of `src/graph.rs`. -/
structure Connection where
  from_node : ℕ
  from_slot : ℕ
  to_node : ℕ
  to_slot : ℕ
deriving Repr, DecidableEq

/-- `NodeGraph` of `src/graph.rs`: nodes keyed by id (`HashMap` rendered as
an association list in iteration order) plus a connection list. The
UI-only fields (selection, drag, pan, zoom, pending connection) are not
part of the execution model. -/
structure NodeGraph where
  nodes : List (ℕ × Node)
  connections : List Connection
deriving Repr, DecidableEq

/-- `NodeGraph::add_connection` (lines 150–165 of `src/graph.rs`): pushes
the new connection unless an identical one already exists. -/
def NodeGraph.add_connection (g : NodeGraph)
    (from_node from_slot to_node to_slot : ℕ) : NodeGraph :=
  let exists_already := g.connections.any (fun c =>
    decide (c.from_node = from_node ∧ c.from_slot = from_slot ∧
      c.to_node = to_node ∧ c.to_slot = to_slot))
  if exists_already then g
  else
    { g with connections := g.connections ++
        [{ from_node := from_node, from_slot := from_slot,
           to_node := to_node, to_slot := to_slot }] }

/-- `NodeOutput` of `src/executor.rs`. -/
inductive NodeOutput where
  | image (img : ImageData)
  | text (s : String)
  | none
deriving Repr, DecidableEq

/-- `HashMap::get`, on the association-list rendering. -/
def alookup {α : Type} : List (ℕ × α) → ℕ → Option α
  | [], _ => Option.none
  | (k, v) :: t, k' => if k' = k then some v else alookup t k'

/-- `HashMap::insert` (overwrite), on the association-list rendering. -/
def ainsert {α : Type} : List (ℕ × α) → ℕ → α → List (ℕ × α)
  | [], k, v => [(k, v)]
  | (k', v') :: t, k, v => if k = k' then (k, v) :: t else (k', v') :: ainsert t k v

/-- `Executor::get_input_image` (lines 194–203): first connection into
`(node_id, slot 0)` whose source node has a cached `Image` output; a
matching connection whose source output is absent or non-image is skipped
and the scan continues. -/
def get_input_image_scan (outputs : List (ℕ × NodeOutput)) :
    List Connection → ℕ → Option ImageData
  | [], _ => Option.none
  | c :: rest, node_id =>
    if c.to_node = node_id ∧ c.to_slot = 0 then
      match alookup outputs c.from_node with
      | some (NodeOutput.image img) => some img
      | _ => get_input_image_scan outputs rest node_id
    else get_input_image_scan outputs rest node_id

def get_input_image (g : NodeGraph) (outputs : List (ℕ × NodeOutput))
    (node_id : ℕ) : Option ImageData :=
  get_input_image_scan outputs g.connections node_id

/-- `Executor::get_input_text` (lines 206–215). -/
def get_input_text_scan (outputs : List (ℕ × NodeOutput)) :
    List Connection → ℕ → ℕ → Option String
  | [], _, _ => Option.none
  | c :: rest, node_id, slot =>
    if c.to_node = node_id ∧ c.to_slot = slot then
      match alookup outputs c.from_node with
      | some (NodeOutput.text t) => some t
      | _ => get_input_text_scan outputs rest node_id slot
    else get_input_text_scan outputs rest node_id slot

def get_input_text (g : NodeGraph) (outputs : List (ℕ × NodeOutput))
    (node_id slot : ℕ) : Option String :=
  get_input_text_scan outputs g.connections node_id slot

/-- The `Effects` arm of `execute_node` (lines 130–156): the guarded
effect chain, in source order. -/
def apply_effects (F : FloatOps) (img : ImageData) (p : EffectsParams) : ImageData :=
  let result := img
  let result := if 0 < p.gaussian_blur
    then apply_blur result (ratToU32 (p.gaussian_blur * 0.5)) else result
  let result := if 0 < p.directional_blur
    then apply_directional_blur F result (p.directional_blur / 100) p.directional_blur_angle
    else result
  let result := if 0 < p.progressive_blur
    then apply_progressive_blur F result (p.progressive_blur / 100)
      p.progressive_blur_direction (p.progressive_blur_falloff / 100)
    else result
  let result := if 0 < p.glass_blinds
    then apply_glass_blinds F result (p.glass_blinds / 100) p.glass_blinds_frequency
      p.glass_blinds_angle (p.glass_blinds_phase / 100)
    else result
  let result := if 0 < p.sharpen then apply_sharpen result (p.sharpen / 100) else result
  let result := if 0 < p.grain
    then apply_grain_advanced result (p.grain / 100) p.grain_size
      p.grain_monochrome p.grain_seed
    else result
  let result := if 0 < p.vignette
    then apply_vignette F result (p.vignette / 100) (p.vignette_roundness / 100)
      (p.vignette_smoothness / 100)
    else result
  result

/-- `Executor::execute_node` (lines 76–191): dispatch on the node's
properties, then cache the output under the node id. -/
def execute_node (F : FloatOps) (g : NodeGraph)
    (input_images : List (ℕ × ImageData)) (outputs : List (ℕ × NodeOutput))
    (node_id : ℕ) : Except String (List (ℕ × NodeOutput)) :=
  match g.nodes.find? (fun p => p.1 = node_id) with
  | Option.none => Except.error "Node not found"
  | some (_, node) =>
    let output : NodeOutput :=
      match node.properties with
      | .imageProps texture_id =>
        match texture_id with
        | some tex_id =>
          match alookup input_images tex_id with
          | some img => .image img
          | Option.none => .none
        | Option.none => .none
      | .adjust p =>
        match get_input_image g outputs node_id with
        | some img => .image (apply_adjustments F img p.brightness p.contrast
            p.saturation p.exposure p.highlights p.shadows p.temperature
            p.tint p.vibrance p.gamma)
        | Option.none => .none
      | .effects p =>
        match get_input_image g outputs node_id with
        | some img => .image (apply_effects F img p)
        | Option.none => .none
      | .text t => .text t
      | .concat separator =>
        let text1 := get_input_text g outputs node_id 0
        let text2 := get_input_text g outputs node_id 1
        .text ((text1.getD "") ++ separator ++ (text2.getD ""))
      | .content => match get_input_image g outputs node_id with
        | some img => .image img
        | Option.none => .none
      | .bucket => match get_input_image g outputs node_id with
        | some img => .image img
        | Option.none => .none
      | .compare => match get_input_image g outputs node_id with
        | some img => .image img
        | Option.none => .none
      | .other => .none
    Except.ok (ainsert outputs node_id output)

/-- Marker map of `visit_node`: `some true` = in progress, `some false` =
done, absent = unvisited. -/
abbrev VisitMap := List (ℕ × Bool)

/-- Result type of the fueled DFS: `Option.none` means the modelling fuel
ran out (shown impossible for the fuel `topological_sort` supplies). -/
abbrev VisitRes := Option (Except String (VisitMap × List ℕ))

/-- The `for conn in graph.connections_iter()` loop of `visit_node`
(lines 248–252), parametric in the recursive visit of a predecessor. -/
def visit_conns (visit : ℕ → VisitMap → List ℕ → VisitRes) :
    List Connection → ℕ → VisitMap → List ℕ → VisitRes
  | [], _, visited, result => some (Except.ok (visited, result))
  | c :: rest, node_id, visited, result =>
    if c.to_node = node_id then
      match visit c.from_node visited result with
      | Option.none => Option.none
      | some (Except.error e) => some (Except.error e)
      | some (Except.ok (v, r)) => visit_conns visit rest node_id v r
    else visit_conns visit rest node_id visited result

/-- `Executor::visit_node` (lines 231–258): three-state DFS with cycle
detection. The `fuel` argument is a modelling device for the Rust
recursion; `visit_fuel` below always suffices. -/
def visit_node (g : NodeGraph) (fuel : ℕ) (node_id : ℕ)
    (visited : VisitMap) (result : List ℕ) : VisitRes :=
  match fuel with
  | 0 => Option.none
  | fuel' + 1 =>
    match alookup visited node_id with
    | some true => some (Except.error "Cycle detected in graph")
    | some false => some (Except.ok (visited, result))
    | Option.none =>
      match visit_conns (visit_node g fuel') g.connections node_id
          (ainsert visited node_id true) result with
      | Option.none => Option.none
      | some (Except.error e) => some (Except.error e)
      | some (Except.ok (v, r)) =>
        some (Except.ok (ainsert v node_id false, r ++ [node_id]))

/-- Every id the DFS can ever visit: graph node ids plus connection
sources. -/
def visit_ids (g : NodeGraph) : List ℕ :=
  (g.nodes.map Prod.fst ++ g.connections.map Connection.from_node).dedup

def visit_fuel (g : NodeGraph) : ℕ := (visit_ids g).length + 1

/-- The `for node_id in node_ids` loop of `topological_sort`
(lines 224–226). -/
def sort_fold (g : NodeGraph) : List ℕ → VisitMap → List ℕ → VisitRes
  | [], v, r => some (Except.ok (v, r))
  | id :: rest, v, r =>
    match visit_node g (visit_fuel g) id v r with
    | Option.none => Option.none
    | some (Except.error e) => some (Except.error e)
    | some (Except.ok (v', r')) => sort_fold g rest v' r'

/-- `Executor::topological_sort` (lines 218–229). -/
def topological_sort (g : NodeGraph) : Option (Except String (List ℕ)) :=
  match sort_fold g (g.nodes.map Prod.fst) [] [] with
  | Option.none => Option.none
  | some (Except.error e) => some (Except.error e)
  | some (Except.ok (_, result)) => some (Except.ok result)

/-- The `for node_id in order { self.execute_node(..)? }` loop of
`execute` (lines 46–48): on an error the partially filled cache is kept
(the Rust `?` aborts after the failing node). -/
def run_nodes (F : FloatOps) (g : NodeGraph) (input_images : List (ℕ × ImageData)) :
    List ℕ → List (ℕ × NodeOutput) → List (ℕ × NodeOutput) × Option String
  | [], outputs => (outputs, Option.none)
  | id :: rest, outputs =>
    match execute_node F g input_images outputs id with
    | Except.error e => (outputs, some e)
    | Except.ok outputs' => run_nodes F g input_images rest outputs'

/-- The final result scan of `execute` (lines 50–70): Adjust/Effects
outputs overwrite the running result unconditionally; an Image output is
taken only while the result is still empty. -/
def final_scan (outputs : List (ℕ × NodeOutput)) (nodes : List (ℕ × Node)) :
    Option ImageData :=
  nodes.foldl (fun result p =>
    match p.2.node_type with
    | NodeType.adjust =>
      match alookup outputs p.1 with
      | some (NodeOutput.image img) => some img
      | _ => result
    | NodeType.effects =>
      match alookup outputs p.1 with
      | some (NodeOutput.image img) => some img
      | _ => result
    | NodeType.image =>
      match result with
      | Option.none =>
        match alookup outputs p.1 with
        | some (NodeOutput.image img) => some img
        | _ => Option.none
      | some rimg => some rimg
    | _ => result) Option.none

/-- The executor state: the output cache surviving between runs. -/
structure Executor where
  outputs : List (ℕ × NodeOutput)

/-- `Executor::execute` (lines 38–73): clear the cache, topologically sort,
run every node in order, then scan for the conventional result. -/
def Executor.execute (F : FloatOps) (self : Executor) (graph : NodeGraph)
    (input_images : List (ℕ × ImageData)) :
    Option (Executor × Except String (Option ImageData)) :=
  let outputs0 : List (ℕ × NodeOutput) := []
  match topological_sort graph with
  | Option.none => Option.none
  | some (Except.error e) => some ({ outputs := outputs0 }, Except.error e)
  | some (Except.ok order) =>
    match run_nodes F graph input_images order outputs0 with
    | (outs, some e) => some ({ outputs := outs }, Except.error e)
    | (outs, Option.none) =>
      some ({ outputs := outs }, Except.ok (final_scan outs graph.nodes))

/-! ### C2 — `add_connection` deduplication -/

/-- A sequence of `add_connection` calls, as an external caller would
issue them. -/
def add_connections (g : NodeGraph) : List (ℕ × ℕ × ℕ × ℕ) → NodeGraph
  | [] => g
  | q :: rest => add_connections (g.add_connection q.1 q.2.1 q.2.2.1 q.2.2.2) rest

lemma add_connection_nodup (g : NodeGraph) (a b c d : ℕ)
    (h : g.connections.Nodup) :
    (g.add_connection a b c d).connections.Nodup := by
  unfold NodeGraph.add_connection
  by_cases hex : (g.connections.any fun c' =>
      decide (c'.from_node = a ∧ c'.from_slot = b ∧ c'.to_node = c ∧ c'.to_slot = d)) = true
  · rw [if_pos hex]; exact h
  · rw [if_neg hex]
    show (g.connections ++ [Connection.mk a b c d]).Nodup
    rw [← List.concat_eq_append]
    refine List.Nodup.concat ?_ h
    intro hmem
    rw [Bool.not_eq_true, List.any_eq_false] at hex
    have h2 := hex _ hmem
    simp at h2

lemma add_connections_nodup (adds : List (ℕ × ℕ × ℕ × ℕ)) :
    ∀ g : NodeGraph, g.connections.Nodup → (add_connections g adds).connections.Nodup := by
  induction adds with
  | nil => intro g h; exact h
  | cons q rest ih =>
    intro g h
    exact ih _ (add_connection_nodup g q.1 q.2.1 q.2.2.1 q.2.2.2 h)

/-- C2 counterexample: two `add_connection` calls targeting the same
destination `(node 2, slot 0)` from different sources leave **two**
incoming connections on that slot — occupied destination slots are not
replaced. -/
theorem C2_counterexample :
    (((NodeGraph.mk [] []).add_connection 1 0 2 0).add_connection 3 0 2 0).connections.countP
      (fun c => decide (c.to_node = 2 ∧ c.to_slot = 0)) = 2 := by
  decide

/-- C2 (amended): for every sequence of `add_connection` calls starting
from a graph with duplicate-free connections, each exact
`(from_node, from_slot, to_node, to_slot)` quadruple occurs at most once
in the connection list (insertion is deduplicated); a destination slot
may however accumulate several incoming connections from distinct
sources. -/
theorem C2_add_connection_dedup (g : NodeGraph) (adds : List (ℕ × ℕ × ℕ × ℕ))
    (h : g.connections.Nodup) (c : Connection) :
    ((add_connections g adds).connections.count c) ≤ 1 :=
  List.nodup_iff_count_le_one.mp (add_connections_nodup adds g h) c

/-- Witness for C2: the amended theorem applied to the empty graph and a
concrete repeated request. -/
theorem C2_witness :
    (add_connections (NodeGraph.mk [] []) [(1, 0, 2, 0), (1, 0, 2, 0), (3, 0, 2, 0)]).connections.count
      (Connection.mk 1 0 2 0) ≤ 1 :=
  C2_add_connection_dedup (NodeGraph.mk [] []) [(1, 0, 2, 0), (1, 0, 2, 0), (3, 0, 2, 0)]
    (by decide) (Connection.mk 1 0 2 0)

/-! ### Byte-cast helper lemmas -/

lemma ratFloor_eq_intFloor (q : ℚ) : q.floor = ⌊q⌋ := by
  rw [Rat.floor_def', Rat.floor_def]

lemma truncQ_of_nonneg (q : ℚ) (h : 0 ≤ q) : truncQ q = ⌊q⌋ := by
  unfold truncQ
  rw [if_neg (not_lt.mpr h), ratFloor_eq_intFloor]

lemma truncQ_natCast (n : ℕ) : truncQ (n : ℚ) = (n : ℤ) := by
  rw [truncQ_of_nonneg _ (by positivity)]
  exact_mod_cast Int.floor_natCast n

lemma clampByte_natCast (o : ℕ) (h : o ≤ 255) : clampByte ((o : ℚ)) = o := by
  unfold clampByte clampQ
  rw [min_eq_left (by exact_mod_cast h), max_eq_right (by positivity), truncQ_natCast]
  simp

/-! ### C7 — zero-magnitude effects are no-ops -/

lemma apply_blur_zero (img : ImageData) : apply_blur img 0 = img := by
  simp [apply_blur]

lemma sharpen_byte_zero (o bl : ℕ) (h : o ≤ 255) : sharpen_byte 0 o bl = o := by
  unfold sharpen_byte
  rw [zero_mul, add_zero, clampByte_natCast o h]

lemma sharpenChunks_zero (l m : List ℕ) (h : ∀ b ∈ l, b ≤ 255) :
    sharpenChunks 0 l m = l := by
  rw [sharpenChunks.eq_def]
  split
  · next p1 p2 p3 p4 ps q1 q2 q3 q4 qs =>
    rw [sharpen_byte_zero p1 q1 (h p1 (by simp)),
      sharpen_byte_zero p2 q2 (h p2 (by simp)),
      sharpen_byte_zero p3 q3 (h p3 (by simp)),
      sharpenChunks_zero ps qs (fun x hx => h x (by simp [hx]))]
    rfl
  · rfl

lemma apply_sharpen_zero (img : ImageData) (h : ∀ b ∈ img.pixels, b ≤ 255) :
    apply_sharpen img 0 = img := by
  unfold apply_sharpen
  rw [sharpenChunks_zero _ _ h]

lemma apply_effects_all_zero (F : FloatOps) (img : ImageData) (p : EffectsParams)
    (h1 : p.gaussian_blur = 0) (h2 : p.directional_blur = 0)
    (h3 : p.progressive_blur = 0) (h4 : p.glass_blinds = 0)
    (h5 : p.sharpen = 0) (h6 : p.grain = 0) (h7 : p.vignette = 0) :
    apply_effects F img p = img := by
  unfold apply_effects
  rw [h1, h2, h3, h4, h5, h6, h7]
  simp

/-- C7: blur with radius 0 returns an identical buffer; sharpen with
amount 0 returns the input unchanged; and the Effects dispatch skips every
effect whose magnitude parameter is 0, so an Effects node with all seven
magnitudes at 0 outputs an image identical to its input. -/
theorem C7_zero_magnitude_noop :
    (∀ img : ImageData, apply_blur img 0 = img) ∧
    (∀ img : ImageData, (∀ b ∈ img.pixels, b ≤ 255) → apply_sharpen img 0 = img) ∧
    (∀ (F : FloatOps) (img : ImageData) (p : EffectsParams),
      p.gaussian_blur = 0 → p.directional_blur = 0 → p.progressive_blur = 0 →
      p.glass_blinds = 0 → p.sharpen = 0 → p.grain = 0 → p.vignette = 0 →
      apply_effects F img p = img) :=
  ⟨apply_blur_zero,
   apply_sharpen_zero,
   apply_effects_all_zero⟩

/-- Interpretation of the abstract float ops in which `exp2` is constantly
1, `pow x y = x`, `sin`/`cos` are constantly 0 resp. 1 and π is a rational
approximation; used only to instantiate closed witnesses. -/
def F0 : FloatOps :=
  ⟨fun _ => 1, fun x _ => x, fun _ => 0, fun _ => 1, fun _ => 0, 314159 / 100000⟩

/-- 1×1 test image. -/
def imgA : ImageData := ⟨[10, 20, 30, 255], 1, 1⟩

/-- Second, distinct 1×1 test image. -/
def imgB : ImageData := ⟨[1, 2, 3, 255], 1, 1⟩

/-- Effects parameters with every magnitude 0 (the slider defaults of
`NodeProperties::for_type(Effects)` for the non-magnitude fields). -/
def zeroFx : EffectsParams :=
  ⟨0, 0, 0, 0, BlurDirection.bottom, 50, 0, 10, 0, 0, 0, 2, true, 0, 0, 0, 50, 50⟩

/-- Witness for C7 at a concrete image and parameter set. -/
theorem C7_witness :
    apply_blur imgA 0 = imgA ∧ apply_sharpen imgA 0 = imgA ∧
      apply_effects F0 imgA zeroFx = imgA :=
  ⟨C7_zero_magnitude_noop.1 imgA,
   C7_zero_magnitude_noop.2.1 imgA (by decide),
   C7_zero_magnitude_noop.2.2 F0 imgA zeroFx rfl rfl rfl rfl rfl rfl rfl⟩

/-! ### Buffer indexing infrastructure -/

lemma flatten_getD_uniform {L : ℕ} (rows : List (List ℕ))
    (h : ∀ r ∈ rows, r.length = L) :
    ∀ (i c : ℕ), c < L → ∀ d, rows.flatten.getD (i * L + c) d = (rows.getD i []).getD c d := by
  induction rows with
  | nil => intro i c _ d; simp [List.getD]
  | cons r rest ih =>
    intro i c hc d
    have hr : r.length = L := h r (by simp)
    match i with
    | 0 =>
      simp only [List.flatten_cons, zero_mul, zero_add]
      rw [List.getD_append _ _ _ _ (by omega)]
      rfl
    | j + 1 =>
      simp only [List.flatten_cons]
      rw [List.getD_append_right _ _ _ _ (by nlinarith)]
      have harith : (j + 1) * L + c - r.length = j * L + c := by
        rw [hr]; ring_nf; omega
      rw [harith, ih (fun r hr => h r (by simp [hr])) j c hc d]
      rfl

lemma row_length (w : ℕ) (g : ℕ → List ℕ) (hg : ∀ x, (g x).length = 4) :
    (((List.range w).map g).flatten).length = w * 4 := by
  rw [List.length_flatten]
  induction w with
  | zero => simp
  | succ n ih =>
    rw [List.range_succ]
    simp only [List.map_append, List.map_cons, List.map_nil, List.sum_append]
    rw [ih]
    simp [hg]
    ring

lemma getD_map_range (h : ℕ) (g : ℕ → List ℕ) (y : ℕ) (hy : y < h) :
    ((List.range h).map g).getD y [] = g y := by
  simp [List.getD_eq_getElem?_getD, List.getElem?_map, List.getElem?_range hy]

/-- Indexing into a `renderPixels` buffer: byte `c` of the chunk at
`(x, y)` sits at offset `(y*w + x)*4 + c` and equals byte `c` of
`f x y`. -/
lemma renderPixels_getD (w h : ℕ) (f : ℕ → ℕ → List ℕ)
    (hf : ∀ x y, (f x y).length = 4) (x y c : ℕ)
    (hx : x < w) (hy : y < h) (hc : c < 4) (d : ℕ) :
    (renderPixels w h f).getD ((y * w + x) * 4 + c) d = (f x y).getD c d := by
  unfold renderPixels
  have hrows : ∀ r ∈ (List.range h).map (fun y => ((List.range w).map (fun x => f x y)).flatten),
      r.length = w * 4 := by
    intro r hr
    rw [List.mem_map] at hr
    obtain ⟨y', _, rfl⟩ := hr
    exact row_length w _ (fun x' => hf x' y')
  have harith : (y * w + x) * 4 + c = y * (w * 4) + (x * 4 + c) := by ring
  rw [harith, flatten_getD_uniform _ hrows y (x * 4 + c) (by omega) d,
    getD_map_range h _ y hy,
    flatten_getD_uniform _ (by
      intro r hr
      rw [List.mem_map] at hr
      obtain ⟨x', _, rfl⟩ := hr
      exact hf x' y) x c hc d,
    getD_map_range w _ x hx]

/-- Length of a `renderPixels` buffer. -/
lemma renderPixels_length (w h : ℕ) (f : ℕ → ℕ → List ℕ)
    (hf : ∀ x y, (f x y).length = 4) :
    (renderPixels w h f).length = w * h * 4 := by
  unfold renderPixels
  rw [List.length_flatten]
  induction h with
  | zero => simp
  | succ n ih =>
    rw [List.range_succ]
    simp only [List.map_append, List.map_cons, List.map_nil, List.map_map, List.sum_append]
    rw [List.map_map] at ih
    rw [ih]
    simp only [Function.comp, List.sum_cons, List.sum_nil]
    rw [row_length w _ (fun x' => hf x' n)]
    ring

/-- `pix_idx` over natural coordinates is the plain index arithmetic. -/
lemma pix_idx_natCast (w y x : ℕ) :
    pix_idx (w : ℤ) (y : ℤ) (x : ℤ) = (y * w + x) * 4 := by
  unfold pix_idx
  have : ((y : ℤ) * w + x) * 4 = (((y * w + x) * 4 : ℕ) : ℤ) := by push_cast; ring
  rw [this, Int.toNat_natCast]

/-! ### C10 — alpha-channel preservation -/

lemma getD_set_ne (l : List ℕ) (i j v : ℕ) (h : i ≠ j) :
    (l.set i v).getD j 0 = l.getD j 0 := by
  simp [List.getD_eq_getElem?_getD, List.getElem?_set_ne h]

lemma set3_alpha (out : List ℕ) (idx : ℕ) (nr ng nb : ℚ) (j : ℕ)
    (hidx : idx % 4 = 0) (hj : j % 4 = 3) :
    (set3 out idx nr ng nb).getD j 0 = out.getD j 0 := by
  unfold set3
  rw [getD_set_ne _ _ _ _ (by omega), getD_set_ne _ _ _ _ (by omega),
    getD_set_ne _ _ _ _ (by omega)]

lemma grain_fold_alpha (w h : ℕ) (nr ng nb : ℚ) (j : ℕ) (hj : j % 4 = 3) :
    ∀ (pts : List (ℕ × ℕ)) (out : List ℕ),
      (pts.foldl (fun acc p =>
        if p.2 < w ∧ p.1 < h then set3 acc ((p.1 * w + p.2) * 4) nr ng nb else acc)
        out).getD j 0 = out.getD j 0 := by
  intro pts
  induction pts with
  | nil => intro out; rfl
  | cons p rest ih =>
    intro out
    rw [List.foldl_cons, ih]
    split
    · exact set3_alpha _ _ _ _ _ _ (by omega) hj
    · rfl

lemma grain_apply_block_alpha (w h bs yb xb : ℕ) (nr ng nb : ℚ) (j : ℕ)
    (hj : j % 4 = 3) (out : List ℕ) :
    (grain_apply_block w h bs yb xb nr ng nb out).getD j 0 = out.getD j 0 :=
  grain_fold_alpha w h nr ng nb j hj _ out

lemma grain_steps_alpha (w h bs : ℕ) (amount : ℚ) (mono : Bool) (j : ℕ)
    (hj : j % 4 = 3) :
    ∀ (blocks : List (ℕ × ℕ)) (st : ℕ × List ℕ),
      ((blocks.foldl (grain_step w h bs amount mono) st).2).getD j 0 = st.2.getD j 0 := by
  intro blocks
  induction blocks with
  | nil => intro st; rfl
  | cons blk rest ih =>
    intro st
    rw [List.foldl_cons, ih]
    unfold grain_step
    split
    · exact grain_apply_block_alpha _ _ _ _ _ _ _ _ _ hj _
    · exact grain_apply_block_alpha _ _ _ _ _ _ _ _ _ hj _

lemma apply_grain_advanced_alpha (img : ImageData) (amount size : ℚ)
    (mono : Bool) (seed : ℕ) (j : ℕ) (hj : j % 4 = 3) :
    (apply_grain_advanced img amount size mono seed).pixels.getD j 0 =
      img.pixels.getD j 0 := by
  unfold apply_grain_advanced
  exact grain_steps_alpha _ _ _ _ _ _ hj _ _

lemma mapChunks4_getD_alpha (f : ℕ → ℕ → ℕ → ℕ → List ℕ)
    (hlen : ∀ a b c d, (f a b c d).length = 4)
    (halpha : ∀ a b c d, (f a b c d).getD 3 0 = d) :
    ∀ (l : List ℕ) (p : ℕ), (mapChunks4 f l).getD (4 * p + 3) 0 = l.getD (4 * p + 3) 0 := by
  intro l
  rw [mapChunks4.eq_def]
  split
  · next a b c d rest =>
    intro p
    match p with
    | 0 =>
      rw [mul_zero, zero_add, List.getD_append _ _ _ _ (by rw [hlen]; omega)]
      exact halpha a b c d
    | j + 1 =>
      rw [List.getD_append_right _ _ _ _ (by rw [hlen]; omega)]
      have h1 : 4 * (j + 1) + 3 - (f a b c d).length = 4 * j + 3 := by rw [hlen]; omega
      have h2 : 4 * (j + 1) + 3 = (4 * j + 3) + 1 + 1 + 1 + 1 := by omega
      rw [h1, mapChunks4_getD_alpha f hlen halpha rest j, h2]
      simp [List.getD_cons_succ]
  · intro p; rfl

lemma sharpenChunks_getD_alpha (amount : ℚ) :
    ∀ (l m : List ℕ) (p : ℕ),
      (sharpenChunks amount l m).getD (4 * p + 3) 0 = l.getD (4 * p + 3) 0 := by
  intro l m
  rw [sharpenChunks.eq_def]
  split
  · next p1 p2 p3 p4 ps q1 q2 q3 q4 qs =>
    intro p
    match p with
    | 0 => rfl
    | j + 1 =>
      have h2 : 4 * (j + 1) + 3 = (4 * j + 3) + 4 := by omega
      rw [show ([sharpen_byte amount p1 q1, sharpen_byte amount p2 q2,
          sharpen_byte amount p3 q3, p4] ++ sharpenChunks amount ps qs) =
          sharpen_byte amount p1 q1 :: sharpen_byte amount p2 q2 ::
          sharpen_byte amount p3 q3 :: p4 :: sharpenChunks amount ps qs from rfl]
      rw [h2]
      show (sharpenChunks amount ps qs).getD (4 * j + 3) 0 = _
      rw [sharpenChunks_getD_alpha amount ps qs j]
      rfl
  · intro p; rfl

lemma apply_adjustments_alpha (F : FloatOps) (img : ImageData)
    (b c s e hi sh te ti v ga : ℚ) (x y : ℕ) :
    (apply_adjustments F img b c s e hi sh te ti v ga).pixels.getD
        ((y * img.width + x) * 4 + 3) 0 =
      img.pixels.getD ((y * img.width + x) * 4 + 3) 0 := by
  unfold apply_adjustments
  have h : (y * img.width + x) * 4 + 3 = 4 * (y * img.width + x) + 3 := by ring
  rw [h]
  refine mapChunks4_getD_alpha _ ?_ ?_ img.pixels (y * img.width + x)
  · intro a b c d; rfl
  · intro a b c d; rfl

lemma apply_sharpen_alpha (img : ImageData) (amount : ℚ) (x y : ℕ) :
    (apply_sharpen img amount).pixels.getD ((y * img.width + x) * 4 + 3) 0 =
      img.pixels.getD ((y * img.width + x) * 4 + 3) 0 := by
  unfold apply_sharpen
  have h : (y * img.width + x) * 4 + 3 = 4 * (y * img.width + x) + 3 := by ring
  rw [h]
  exact sharpenChunks_getD_alpha _ _ _ _

lemma apply_blur_alpha (img : ImageData) (radius x y : ℕ)
    (hx : x < img.width) (hy : y < img.height) :
    (apply_blur img radius).pixels.getD ((y * img.width + x) * 4 + 3) 0 =
      img.pixels.getD ((y * img.width + x) * 4 + 3) 0 := by
  by_cases h0 : radius = 0
  · rw [h0, apply_blur_zero]
  · simp only [apply_blur, if_neg h0]
    refine (renderPixels_getD _ _ _ ?_ x y 3 hx hy (by omega) 0).trans ?_
    · intro a b; rfl
    · show img.pixels.getD (pix_idx (img.width : ℤ) (y : ℤ) (x : ℤ) + 3) 0 = _
      rw [pix_idx_natCast]

lemma apply_directional_blur_alpha (F : FloatOps) (img : ImageData)
    (amount angle : ℚ) (x y : ℕ) (hx : x < img.width) (hy : y < img.height) :
    (apply_directional_blur F img amount angle).pixels.getD
        ((y * img.width + x) * 4 + 3) 0 =
      img.pixels.getD ((y * img.width + x) * 4 + 3) 0 := by
  simp only [apply_directional_blur]
  refine (renderPixels_getD _ _ _ ?_ x y 3 hx hy (by omega) 0).trans ?_
  · intro a b; rfl
  · show img.pixels.getD (pix_idx (img.width : ℤ) (y : ℤ) (x : ℤ) + 3) 0 = _
    rw [pix_idx_natCast]

lemma apply_progressive_blur_alpha (F : FloatOps) (img : ImageData)
    (amount : ℚ) (dir : BlurDirection) (falloff : ℚ) (x y : ℕ)
    (hx : x < img.width) (hy : y < img.height) :
    (apply_progressive_blur F img amount dir falloff).pixels.getD
        ((y * img.width + x) * 4 + 3) 0 =
      img.pixels.getD ((y * img.width + x) * 4 + 3) 0 := by
  simp only [apply_progressive_blur]
  refine (renderPixels_getD _ _ _ ?_ x y 3 hx hy (by omega) 0).trans ?_
  · intro a b
    dsimp only
    split <;> rfl
  · dsimp only
    split
    · show img.pixels.getD (pix_idx (img.width : ℤ) (y : ℤ) (x : ℤ) + 3) 0 = _
      rw [pix_idx_natCast]
    · show img.pixels.getD (pix_idx (img.width : ℤ) (y : ℤ) (x : ℤ) + 3) 0 = _
      rw [pix_idx_natCast]

lemma apply_glass_blinds_alpha (F : FloatOps) (img : ImageData)
    (intensity frequency angle phase : ℚ) (x y : ℕ)
    (hx : x < img.width) (hy : y < img.height) :
    (apply_glass_blinds F img intensity frequency angle phase).pixels.getD
        ((y * img.width + x) * 4 + 3) 0 =
      img.pixels.getD ((y * img.width + x) * 4 + 3) 0 := by
  simp only [apply_glass_blinds]
  refine (renderPixels_getD _ _ _ ?_ x y 3 hx hy (by omega) 0).trans ?_
  · intro a b; rfl
  · show img.pixels.getD (pix_idx (img.width : ℤ) (y : ℤ) (x : ℤ) + 3) 0 = _
    rw [pix_idx_natCast]

lemma apply_vignette_alpha (F : FloatOps) (img : ImageData)
    (intensity roundness smoothness : ℚ) (x y : ℕ)
    (hx : x < img.width) (hy : y < img.height) :
    (apply_vignette F img intensity roundness smoothness).pixels.getD
        ((y * img.width + x) * 4 + 3) 0 =
      img.pixels.getD ((y * img.width + x) * 4 + 3) 0 := by
  simp only [apply_vignette]
  refine (renderPixels_getD _ _ _ ?_ x y 3 hx hy (by omega) 0).trans ?_
  · intro a b; rfl
  · show img.pixels.getD (pix_idx (img.width : ℤ) (y : ℤ) (x : ℤ) + 3) 0 = _
    rw [pix_idx_natCast]

/-- C10: every pixel kernel leaves the alpha byte of every coordinate
unchanged — the byte at offset `(y*width + x)*4 + 3` of the output equals
the input's byte there, for adjustments, box blur, directional blur,
progressive blur, glass blinds, sharpen, grain and vignette. -/
theorem C10_alpha_preserved :
    (∀ (F : FloatOps) (img : ImageData) (b c s e hi sh te ti v ga : ℚ) (x y : ℕ),
      x < img.width → y < img.height →
      (apply_adjustments F img b c s e hi sh te ti v ga).pixels.getD
        ((y * img.width + x) * 4 + 3) 0 = img.pixels.getD ((y * img.width + x) * 4 + 3) 0) ∧
    (∀ (img : ImageData) (radius x y : ℕ), x < img.width → y < img.height →
      (apply_blur img radius).pixels.getD ((y * img.width + x) * 4 + 3) 0 =
        img.pixels.getD ((y * img.width + x) * 4 + 3) 0) ∧
    (∀ (F : FloatOps) (img : ImageData) (amount angle : ℚ) (x y : ℕ),
      x < img.width → y < img.height →
      (apply_directional_blur F img amount angle).pixels.getD
        ((y * img.width + x) * 4 + 3) 0 = img.pixels.getD ((y * img.width + x) * 4 + 3) 0) ∧
    (∀ (F : FloatOps) (img : ImageData) (amount : ℚ) (dir : BlurDirection)
        (falloff : ℚ) (x y : ℕ), x < img.width → y < img.height →
      (apply_progressive_blur F img amount dir falloff).pixels.getD
        ((y * img.width + x) * 4 + 3) 0 = img.pixels.getD ((y * img.width + x) * 4 + 3) 0) ∧
    (∀ (F : FloatOps) (img : ImageData) (intensity frequency angle phase : ℚ) (x y : ℕ),
      x < img.width → y < img.height →
      (apply_glass_blinds F img intensity frequency angle phase).pixels.getD
        ((y * img.width + x) * 4 + 3) 0 = img.pixels.getD ((y * img.width + x) * 4 + 3) 0) ∧
    (∀ (img : ImageData) (amount : ℚ) (x y : ℕ), x < img.width → y < img.height →
      (apply_sharpen img amount).pixels.getD ((y * img.width + x) * 4 + 3) 0 =
        img.pixels.getD ((y * img.width + x) * 4 + 3) 0) ∧
    (∀ (img : ImageData) (amount size : ℚ) (mono : Bool) (seed x y : ℕ),
      x < img.width → y < img.height →
      (apply_grain_advanced img amount size mono seed).pixels.getD
        ((y * img.width + x) * 4 + 3) 0 = img.pixels.getD ((y * img.width + x) * 4 + 3) 0) ∧
    (∀ (F : FloatOps) (img : ImageData) (intensity roundness smoothness : ℚ) (x y : ℕ),
      x < img.width → y < img.height →
      (apply_vignette F img intensity roundness smoothness).pixels.getD
        ((y * img.width + x) * 4 + 3) 0 = img.pixels.getD ((y * img.width + x) * 4 + 3) 0) :=
  ⟨fun F img b c s e hi sh te ti v ga x y _ _ =>
      apply_adjustments_alpha F img b c s e hi sh te ti v ga x y,
   fun img radius x y hx hy => apply_blur_alpha img radius x y hx hy,
   fun F img amount angle x y hx hy =>
      apply_directional_blur_alpha F img amount angle x y hx hy,
   fun F img amount dir falloff x y hx hy =>
      apply_progressive_blur_alpha F img amount dir falloff x y hx hy,
   fun F img i f a p x y hx hy => apply_glass_blinds_alpha F img i f a p x y hx hy,
   fun img amount x y _ _ => apply_sharpen_alpha img amount x y,
   fun img amount size mono seed x y _ _ =>
      apply_grain_advanced_alpha img amount size mono seed
        ((y * img.width + x) * 4 + 3) (by omega),
   fun F img i r s x y hx hy => apply_vignette_alpha F img i r s x y hx hy⟩

/-- Witness for C10 at a concrete 1×1 image and concrete parameters. -/
theorem C10_witness :
    (apply_adjustments F0 imgA 1 2 3 4 5 6 7 8 9 10).pixels.getD 3 0 =
        imgA.pixels.getD 3 0 ∧
      (apply_blur imgA 1).pixels.getD 3 0 = imgA.pixels.getD 3 0 ∧
      (apply_directional_blur F0 imgA 1 45).pixels.getD 3 0 = imgA.pixels.getD 3 0 ∧
      (apply_progressive_blur F0 imgA 1 BlurDirection.bottom 1).pixels.getD 3 0 =
        imgA.pixels.getD 3 0 ∧
      (apply_glass_blinds F0 imgA 1 10 45 1).pixels.getD 3 0 = imgA.pixels.getD 3 0 ∧
      (apply_sharpen imgA 1).pixels.getD 3 0 = imgA.pixels.getD 3 0 ∧
      (apply_grain_advanced imgA 1 2 false 7).pixels.getD 3 0 = imgA.pixels.getD 3 0 ∧
      (apply_vignette F0 imgA 1 1 0).pixels.getD 3 0 = imgA.pixels.getD 3 0 := by
  have h := C10_alpha_preserved
  have h1 := h.1 F0 imgA 1 2 3 4 5 6 7 8 9 10 0 0 (by decide) (by decide)
  have h2 := h.2.1 imgA 1 0 0 (by decide) (by decide)
  have h3 := h.2.2.1 F0 imgA 1 45 0 0 (by decide) (by decide)
  have h4 := h.2.2.2.1 F0 imgA 1 BlurDirection.bottom 1 0 0 (by decide) (by decide)
  have h5 := h.2.2.2.2.1 F0 imgA 1 10 45 1 0 0 (by decide) (by decide)
  have h6 := h.2.2.2.2.2.1 imgA 1 0 0 (by decide) (by decide)
  have h7 := h.2.2.2.2.2.2.1 imgA 1 2 false 7 0 0 (by decide) (by decide)
  have h8 := h.2.2.2.2.2.2.2 F0 imgA 1 1 0 0 0 (by decide) (by decide)
  simp only [show (0 * imgA.width + 0) * 4 + 3 = 3 from rfl] at h1 h2 h3 h4 h5 h6 h7 h8
  exact ⟨h1, h2, h3, h4, h5, h6, h7, h8⟩

/-! ### C8 — in-bounds sampling of the blur kernels -/

lemma mem_rangeZ {lo hi a : ℤ} : a ∈ rangeZ lo hi ↔ lo ≤ a ∧ a ≤ hi := by
  unfold rangeZ
  constructor
  · intro h
    rw [List.mem_map] at h
    obtain ⟨i, hmem, heq⟩ := h
    rw [List.mem_range] at hmem
    omega
  · intro h
    rw [List.mem_map]
    exact ⟨(a - lo).toNat, List.mem_range.mpr (by omega), by omega⟩

lemma clampZ_le {v lo hi : ℤ} (h : lo ≤ hi) : clampZ v lo hi ≤ hi := by
  unfold clampZ; omega

lemma clampZ_ge {v lo hi : ℤ} : lo ≤ clampZ v lo hi := by
  unfold clampZ; omega

/-- Any sample at integer coordinates `0 ≤ sy < h`, `0 ≤ sx < w` yields a
pixel index whose last byte is still inside the `w*h*4` buffer. -/
lemma sample_idx_bound (w h : ℕ) (sy sx : ℤ) (hy0 : 0 ≤ sy) (hy : sy < (h : ℤ))
    (hx0 : 0 ≤ sx) (hx : sx < (w : ℤ)) : pix_idx (w : ℤ) sy sx + 3 < w * h * 4 := by
  unfold pix_idx
  have hmul : sy * w ≤ ((h : ℤ) - 1) * w :=
    mul_le_mul_of_nonneg_right (by omega) (by positivity)
  have hle : (sy * w + sx) * 4 + 3 < ((w * h * 4 : ℕ) : ℤ) := by push_cast; nlinarith
  have h0 : (0 : ℤ) ≤ (sy * w + sx) * 4 := by positivity
  omega

lemma C8_blur_h (w h : ℕ) (r : ℤ) (x y : ℕ) (hx : x < w) (hy : y < h) :
    (∀ i ∈ blur_h_idxs (w : ℤ) r x y, i + 3 < w * h * 4) ∧
      (0 ≤ r → 0 < (blur_h_idxs (w : ℤ) r x y).length) := by
  constructor
  · intro i hi
    unfold blur_h_idxs at hi
    rw [List.mem_map] at hi
    obtain ⟨dx, _, rfl⟩ := hi
    exact sample_idx_bound w h _ _ (by exact_mod_cast Nat.zero_le y)
      (by exact_mod_cast hy) clampZ_ge
      (by have := @clampZ_le ((x : ℤ) + dx) 0 ((w : ℤ) - 1) (by omega); omega)
  · intro hr
    unfold blur_h_idxs rangeZ
    simp only [List.length_map, List.length_range]
    omega

lemma C8_blur_v (w h : ℕ) (r : ℤ) (x y : ℕ) (hx : x < w) (hy : y < h) :
    (∀ i ∈ blur_v_idxs (w : ℤ) (h : ℤ) r x y, i + 3 < w * h * 4) ∧
      (0 ≤ r → 0 < (blur_v_idxs (w : ℤ) (h : ℤ) r x y).length) := by
  constructor
  · intro i hi
    unfold blur_v_idxs at hi
    rw [List.mem_map] at hi
    obtain ⟨dy, _, rfl⟩ := hi
    exact sample_idx_bound w h _ _ clampZ_ge
      (by have := @clampZ_le ((y : ℤ) + dy) 0 ((h : ℤ) - 1) (by omega); omega)
      (by exact_mod_cast Nat.zero_le x) (by exact_mod_cast hx)
  · intro hr
    unfold blur_v_idxs rangeZ
    simp only [List.length_map, List.length_range]
    omega

lemma C8_directional (w h : ℕ) (dxq dyq amount : ℚ) (x y : ℕ)
    (hx : x < w) (hy : y < h) :
    (∀ p ∈ dir_samples (w : ℤ) (h : ℤ) dxq dyq (truncQ (max (amount * 20) 1)) x y,
        pix_idx (w : ℤ) p.2 p.1 + 3 < w * h * 4) ∧
      0 < (dir_samples (w : ℤ) (h : ℤ) dxq dyq (truncQ (max (amount * 20) 1)) x y).length := by
  constructor
  · intro p hp
    unfold dir_samples at hp
    rw [List.mem_filter] at hp
    have hcond := hp.2
    simp only [decide_eq_true_eq] at hcond
    exact sample_idx_bound w h _ _ hcond.2.2.1 hcond.2.2.2 hcond.1 hcond.2.1
  · have hs : 1 ≤ truncQ (max (amount * 20) 1) := by
      rw [truncQ_of_nonneg _ (le_trans zero_le_one (le_max_right _ _))]
      exact Int.le_floor.mpr (by exact_mod_cast le_max_right (amount * 20) 1)
    apply List.length_pos_of_mem (a := ((x : ℤ), (y : ℤ)))
    unfold dir_samples
    rw [List.mem_filter]
    constructor
    · rw [List.mem_map]
      refine ⟨0, ?_, ?_⟩
      · rw [mem_rangeZ]; omega
      · simp only [Int.cast_zero, mul_zero, add_zero, truncQ_natCast]
    · simp only [decide_eq_true_eq]
      refine ⟨by positivity, by exact_mod_cast hx, by positivity, by exact_mod_cast hy⟩

lemma C8_progressive (w h : ℕ) (radius : ℤ) (x y : ℕ) (hx : x < w) (hy : y < h) :
    (∀ i ∈ prog_idxs (w : ℤ) (h : ℤ) radius x y, i + 3 < w * h * 4) ∧
      (0 < radius → 0 < (prog_idxs (w : ℤ) (h : ℤ) radius x y).length) := by
  constructor
  · intro i hi
    unfold prog_idxs at hi
    rw [List.mem_flatten] at hi
    obtain ⟨row, hrow, hmem⟩ := hi
    rw [List.mem_map] at hrow
    obtain ⟨dy, _, rfl⟩ := hrow
    rw [List.mem_map] at hmem
    obtain ⟨dx, _, rfl⟩ := hmem
    exact sample_idx_bound w h _ _ clampZ_ge
      (by have := @clampZ_le ((y : ℤ) + dy) 0 ((h : ℤ) - 1) (by omega); omega)
      clampZ_ge
      (by have := @clampZ_le ((x : ℤ) + dx) 0 ((w : ℤ) - 1) (by omega); omega)
  · intro hr
    apply List.length_pos_of_mem
      (a := pix_idx (w : ℤ) (clampZ ((y : ℤ) + 0) 0 ((h : ℤ) - 1))
        (clampZ ((x : ℤ) + 0) 0 ((w : ℤ) - 1)))
    unfold prog_idxs
    rw [List.mem_flatten]
    refine ⟨(rangeZ (-radius) radius).map (fun dx =>
      pix_idx (w : ℤ) (clampZ ((y : ℤ) + 0) 0 ((h : ℤ) - 1))
        (clampZ ((x : ℤ) + dx) 0 ((w : ℤ) - 1))), ?_, ?_⟩
    · rw [List.mem_map]
      exact ⟨0, mem_rangeZ.mpr (by omega), rfl⟩
    · rw [List.mem_map]
      exact ⟨0, mem_rangeZ.mpr (by omega), rfl⟩

/-- C8: every sample index computed by the box-blur passes, the
directional blur and the progressive blur stays strictly inside the
`width*height*4` pixel buffer (clamp-to-edge resp. in-bounds filtering),
and every divisor is positive: the blur passes average over `2r+1 ≥ 1`
samples, the directional blur always keeps at least the centre sample
`i = 0`, and a positive progressive radius yields a nonempty sample
square. -/
theorem C8_blur_kernels_safe :
    (∀ (w h : ℕ) (r : ℤ) (x y : ℕ), x < w → y < h →
      (∀ i ∈ blur_h_idxs (w : ℤ) r x y, i + 3 < w * h * 4) ∧
        (0 ≤ r → 0 < (blur_h_idxs (w : ℤ) r x y).length)) ∧
    (∀ (w h : ℕ) (r : ℤ) (x y : ℕ), x < w → y < h →
      (∀ i ∈ blur_v_idxs (w : ℤ) (h : ℤ) r x y, i + 3 < w * h * 4) ∧
        (0 ≤ r → 0 < (blur_v_idxs (w : ℤ) (h : ℤ) r x y).length)) ∧
    (∀ (w h : ℕ) (dxq dyq amount : ℚ) (x y : ℕ), x < w → y < h →
      (∀ p ∈ dir_samples (w : ℤ) (h : ℤ) dxq dyq (truncQ (max (amount * 20) 1)) x y,
        pix_idx (w : ℤ) p.2 p.1 + 3 < w * h * 4) ∧
        0 < (dir_samples (w : ℤ) (h : ℤ) dxq dyq (truncQ (max (amount * 20) 1)) x y).length) ∧
    (∀ (w h : ℕ) (radius : ℤ) (x y : ℕ), x < w → y < h →
      (∀ i ∈ prog_idxs (w : ℤ) (h : ℤ) radius x y, i + 3 < w * h * 4) ∧
        (0 < radius → 0 < (prog_idxs (w : ℤ) (h : ℤ) radius x y).length)) :=
  ⟨C8_blur_h, C8_blur_v, C8_directional, C8_progressive⟩

/-- Witness for C8 on a 1×1 and a 2×2 image geometry. -/
theorem C8_witness :
    (∀ i ∈ blur_h_idxs 1 50 0 0, i + 3 < 1 * 1 * 4) ∧
      (∀ i ∈ blur_v_idxs 2 2 50 1 1, i + 3 < 2 * 2 * 4) ∧
      0 < (dir_samples 1 1 1 1 (truncQ (max ((1 : ℚ) * 20) 1)) 0 0).length ∧
      (0 < (2 : ℤ) → 0 < (prog_idxs 2 2 2 0 1).length) :=
  ⟨(C8_blur_kernels_safe.1 1 1 50 0 0 (by decide) (by decide)).1,
   (C8_blur_kernels_safe.2.1 2 2 50 1 1 (by decide) (by decide)).1,
   (C8_blur_kernels_safe.2.2.1 1 1 1 1 1 0 0 (by decide) (by decide)).2,
   (C8_blur_kernels_safe.2.2.2 2 2 2 0 1 (by decide) (by decide)).2⟩

/-! ### Topological sort: infrastructure -/

lemma alookup_ainsert {α : Type} (v : List (ℕ × α)) (k : ℕ) (b : α) (k' : ℕ) :
    alookup (ainsert v k b) k' = if k' = k then some b else alookup v k' := by
  induction v with
  | nil =>
    simp only [ainsert, alookup]
  | cons p t ih =>
    obtain ⟨k2, v2⟩ := p
    by_cases h1 : k = k2
    · subst h1
      simp only [ainsert, if_pos rfl, alookup]
      by_cases h2 : k' = k <;> simp [h2]
    · simp only [ainsert, if_neg h1, alookup]
      by_cases h2 : k' = k2
      · subst h2
        rw [if_pos rfl, if_pos rfl, if_neg (fun hc => h1 hc.symm)]
      · rw [if_neg h2, if_neg h2, ih]

/-- Dependency edge derived from the connection list: `Edge g a b` holds
when some connection runs from node `a` into node `b`. -/
def Edge (g : NodeGraph) (a b : ℕ) : Prop :=
  ∃ c ∈ g.connections, c.from_node = a ∧ c.to_node = b

/-- `a` occurs strictly before (some occurrence of) `b` in the list. -/
def beforeIn (r : List ℕ) (a b : ℕ) : Prop :=
  ∃ l1 l2, r = l1 ++ l2 ∧ a ∈ l1 ∧ b ∈ l2

lemma beforeIn_append {r : List ℕ} (s : List ℕ) {a b : ℕ} (h : beforeIn r a b) :
    beforeIn (r ++ s) a b := by
  obtain ⟨l1, l2, rfl, h1, h2⟩ := h
  exact ⟨l1, l2 ++ s, by rw [List.append_assoc], h1, List.mem_append_left _ h2⟩

lemma beforeIn_push {r : List ℕ} {a : ℕ} (idv : ℕ) (h : a ∈ r) :
    beforeIn (r ++ [idv]) a idv :=
  ⟨r, [idv], rfl, h, by simp⟩

lemma beforeIn_irrefl {r : List ℕ} (hnd : r.Nodup) (a : ℕ) : ¬ beforeIn r a a := by
  rintro ⟨l1, l2, rfl, h1, h2⟩
  rw [List.nodup_append] at hnd
  exact hnd.2.2 h1 h2

lemma beforeIn_trans {r : List ℕ} (hnd : r.Nodup) {a b c : ℕ}
    (hab : beforeIn r a b) (hbc : beforeIn r b c) : beforeIn r a c := by
  obtain ⟨l1, l2, rfl, ha, hb⟩ := hab
  obtain ⟨m1, m2, heq, hb', hc⟩ := hbc
  rcases List.append_eq_append_iff.mp heq with ⟨k, hk1, hk2⟩ | ⟨k, hk1, hk2⟩
  · exact ⟨m1, m2, heq, by rw [hk1]; exact List.mem_append_left _ ha, hc⟩
  · exfalso
    rw [List.nodup_append] at hnd
    exact hnd.2.2 (by rw [hk1]; exact List.mem_append_left _ hb') hb

/-- Well-formedness of a produced order prefix: every connection whose
destination is already in the list has its source in the list, at an
earlier position. -/
def OrderOk (g : NodeGraph) (r : List ℕ) : Prop :=
  ∀ c ∈ g.connections, c.to_node ∈ r →
    c.from_node ∈ r ∧ beforeIn r c.from_node c.to_node

/-- Executor DFS state invariant: done markers coincide with list
membership, the list is duplicate-free and dependency-ordered. -/
def SortInv (g : NodeGraph) (v : VisitMap) (r : List ℕ) : Prop :=
  (∀ k, alookup v k = some false ↔ k ∈ r) ∧ r.Nodup ∧ OrderOk g r

/-- Operational facts about one successful `visit_node`-style call. -/
structure VisitOk (v : VisitMap) (r : List ℕ) (v' : VisitMap) (r' : List ℕ) : Prop where
  ext : ∃ s, r' = r ++ s
  falseKeep : ∀ k, alookup v k = some false → alookup v' k = some false
  trueEq : ∀ k, (alookup v' k = some true ↔ alookup v k = some true)
  keysKeep : ∀ k, (alookup v k).isSome → (alookup v' k).isSome

lemma VisitOk.refl (v : VisitMap) (r : List ℕ) : VisitOk v r v r :=
  ⟨⟨[], by simp⟩, fun _ h => h, fun _ => Iff.rfl, fun _ h => h⟩

lemma VisitOk.trans {v r v' r' v'' r''} (h1 : VisitOk v r v' r')
    (h2 : VisitOk v' r' v'' r'') : VisitOk v r v'' r'' := by
  refine ⟨?_, fun k hk => h2.falseKeep k (h1.falseKeep k hk),
    fun k => (h2.trueEq k).trans (h1.trueEq k),
    fun k hk => h2.keysKeep k (h1.keysKeep k hk)⟩
  obtain ⟨s1, rfl⟩ := h1.ext
  obtain ⟨s2, rfl⟩ := h2.ext
  exact ⟨s1 ++ s2, by rw [List.append_assoc]⟩

lemma visit_conns_ok (visit : ℕ → VisitMap → List ℕ → VisitRes)
    (Hv : ∀ id v r v' r', visit id v r = some (Except.ok (v', r')) → VisitOk v r v' r') :
    ∀ (conns : List Connection) (nid : ℕ) (v : VisitMap) (r : List ℕ)
      (v' : VisitMap) (r' : List ℕ),
      visit_conns visit conns nid v r = some (Except.ok (v', r')) → VisitOk v r v' r' := by
  intro conns
  induction conns with
  | nil =>
    intro nid v r v' r' h
    simp only [visit_conns, Option.some.injEq, Except.ok.injEq, Prod.mk.injEq] at h
    obtain ⟨rfl, rfl⟩ := h
    exact VisitOk.refl v r
  | cons c rest ih =>
    intro nid v r v' r' h
    unfold visit_conns at h
    by_cases hc : c.to_node = nid
    · rw [if_pos hc] at h
      cases hv : visit c.from_node v r with
      | none => rw [hv] at h; exact absurd h (by simp)
      | some res =>
        rw [hv] at h
        cases res with
        | error e => exact absurd h (by simp)
        | ok p =>
          obtain ⟨v2, r2⟩ := p
          exact (Hv _ _ _ _ _ hv).trans (ih _ _ _ _ _ h)
    · rw [if_neg hc] at h
      exact ih _ _ _ _ _ h

lemma visit_node_ok (g : NodeGraph) :
    ∀ (fuel : ℕ) (id : ℕ) (v : VisitMap) (r : List ℕ) (v' : VisitMap) (r' : List ℕ),
      visit_node g fuel id v r = some (Except.ok (v', r')) →
      VisitOk v r v' r' ∧ alookup v' id = some false := by
  intro fuel
  induction fuel with
  | zero => intro id v r v' r' h; exact absurd h (by simp [visit_node])
  | succ fuel' ih =>
    intro id v r v' r' h
    unfold visit_node at h
    cases hl : alookup v id with
    | some b =>
      rw [hl] at h
      cases b
      · simp only [Option.some.injEq, Except.ok.injEq, Prod.mk.injEq] at h
        obtain ⟨rfl, rfl⟩ := h
        exact ⟨VisitOk.refl v r, hl⟩
      · exact absurd h (by simp)
    | none =>
      rw [hl] at h
      cases hvc : visit_conns (visit_node g fuel') g.connections id (ainsert v id true) r with
      | none => rw [hvc] at h; exact absurd h (by simp)
      | some res =>
        rw [hvc] at h
        cases res with
        | error e => exact absurd h (by simp)
        | ok p =>
          obtain ⟨v2, r2⟩ := p
          simp only [Option.some.injEq, Except.ok.injEq, Prod.mk.injEq] at h
          obtain ⟨rfl, rfl⟩ := h
          have hok2 : VisitOk (ainsert v id true) r v2 r2 :=
            visit_conns_ok _ (fun a b c d e hh => (ih a b c d e hh).1) _ _ _ _ _ _ hvc
          have hdone : alookup (ainsert v2 id false) id = some false := by
            rw [alookup_ainsert, if_pos rfl]
          refine ⟨⟨?_, ?_, ?_, ?_⟩, hdone⟩
          · obtain ⟨s, rfl⟩ := hok2.ext
            exact ⟨s ++ [id], by rw [List.append_assoc]⟩
          · intro k hk
            have hne : k ≠ id := fun hkid => by rw [hkid, hl] at hk; exact absurd hk (by simp)
            have h1 : alookup (ainsert v id true) k = some false := by
              rw [alookup_ainsert, if_neg hne]; exact hk
            have h2 := hok2.falseKeep k h1
            rw [alookup_ainsert, if_neg hne]; exact h2
          · intro k
            by_cases hk : k = id
            · subst hk
              rw [alookup_ainsert, if_pos rfl, hl]
              simp
            · rw [alookup_ainsert, if_neg hk]
              rw [hok2.trueEq k, alookup_ainsert, if_neg hk]
          · intro k hk
            by_cases hkid : k = id
            · subst hkid; rw [alookup_ainsert, if_pos rfl]; simp
            · rw [alookup_ainsert, if_neg hkid]
              refine hok2.keysKeep k ?_
              rw [alookup_ainsert, if_neg hkid]; exact hk

lemma visit_conns_preds (visit : ℕ → VisitMap → List ℕ → VisitRes)
    (Hok : ∀ id v r v' r', visit id v r = some (Except.ok (v', r')) →
      VisitOk v r v' r' ∧ alookup v' id = some false) :
    ∀ (conns : List Connection) (nid : ℕ) (v : VisitMap) (r : List ℕ)
      (v' : VisitMap) (r' : List ℕ),
      visit_conns visit conns nid v r = some (Except.ok (v', r')) →
      ∀ c ∈ conns, c.to_node = nid → alookup v' c.from_node = some false := by
  intro conns
  induction conns with
  | nil => intro nid v r v' r' _ c hc; exact absurd hc (List.not_mem_nil c)
  | cons c rest ih =>
    intro nid v r v' r' h c' hc' hto
    unfold visit_conns at h
    by_cases hc : c.to_node = nid
    · rw [if_pos hc] at h
      cases hv : visit c.from_node v r with
      | none => rw [hv] at h; exact absurd h (by simp)
      | some res =>
        rw [hv] at h
        cases res with
        | error e => exact absurd h (by simp)
        | ok p =>
          obtain ⟨v2, r2⟩ := p
          rcases List.mem_cons.mp hc' with rfl | hmem
          · have hdone := (Hok _ _ _ _ _ hv).2
            exact (visit_conns_ok visit (fun a b c d e hh => (Hok a b c d e hh).1)
              _ _ _ _ _ _ h).falseKeep _ hdone
          · exact ih _ _ _ _ _ h c' hmem hto
    · rw [if_neg hc] at h
      rcases List.mem_cons.mp hc' with rfl | hmem
      · exact absurd hto hc
      · exact ih _ _ _ _ _ h c' hmem hto

lemma visit_conns_inv (g : NodeGraph) (visit : ℕ → VisitMap → List ℕ → VisitRes)
    (HvInv : ∀ id v r v' r', visit id v r = some (Except.ok (v', r')) →
      SortInv g v r → SortInv g v' r') :
    ∀ (conns : List Connection) (nid : ℕ) (v : VisitMap) (r : List ℕ)
      (v' : VisitMap) (r' : List ℕ),
      visit_conns visit conns nid v r = some (Except.ok (v', r')) →
      SortInv g v r → SortInv g v' r' := by
  intro conns
  induction conns with
  | nil =>
    intro nid v r v' r' h hinv
    simp only [visit_conns, Option.some.injEq, Except.ok.injEq, Prod.mk.injEq] at h
    obtain ⟨rfl, rfl⟩ := h
    exact hinv
  | cons c rest ih =>
    intro nid v r v' r' h hinv
    unfold visit_conns at h
    by_cases hc : c.to_node = nid
    · rw [if_pos hc] at h
      cases hv : visit c.from_node v r with
      | none => rw [hv] at h; exact absurd h (by simp)
      | some res =>
        rw [hv] at h
        cases res with
        | error e => exact absurd h (by simp)
        | ok p =>
          obtain ⟨v2, r2⟩ := p
          exact ih _ _ _ _ _ h (HvInv _ _ _ _ _ hv hinv)
    · rw [if_neg hc] at h
      exact ih _ _ _ _ _ h hinv

lemma visit_node_inv (g : NodeGraph) :
    ∀ (fuel : ℕ) (id : ℕ) (v : VisitMap) (r : List ℕ) (v' : VisitMap) (r' : List ℕ),
      visit_node g fuel id v r = some (Except.ok (v', r')) →
      SortInv g v r → SortInv g v' r' := by
  intro fuel
  induction fuel with
  | zero => intro id v r v' r' h _; exact absurd h (by simp [visit_node])
  | succ fuel' ih =>
    intro id v r v' r' h hinv
    unfold visit_node at h
    cases hl : alookup v id with
    | some b =>
      rw [hl] at h
      cases b
      · simp only [Option.some.injEq, Except.ok.injEq, Prod.mk.injEq] at h
        obtain ⟨rfl, rfl⟩ := h
        exact hinv
      · exact absurd h (by simp)
    | none =>
      rw [hl] at h
      cases hvc : visit_conns (visit_node g fuel') g.connections id (ainsert v id true) r with
      | none => rw [hvc] at h; exact absurd h (by simp)
      | some res =>
        rw [hvc] at h
        cases res with
        | error e => exact absurd h (by simp)
        | ok p =>
          obtain ⟨v2, r2⟩ := p
          simp only [Option.some.injEq, Except.ok.injEq, Prod.mk.injEq] at h
          obtain ⟨rfl, rfl⟩ := h
          have hid_notmem : id ∉ r := fun hmem => by
            rw [← hinv.1 id] at hmem
            rw [hl] at hmem
            exact absurd hmem (by simp)
          have hinv1 : SortInv g (ainsert v id true) r := by
            refine ⟨?_, hinv.2.1, hinv.2.2⟩
            intro k
            rw [alookup_ainsert]
            by_cases hk : k = id
            · subst hk
              rw [if_pos rfl]
              simp only [Option.some.injEq, Bool.true_eq_false]
              exact ⟨fun hfalse => absurd hfalse (by simp), fun hmem => absurd hmem hid_notmem⟩
            · rw [if_neg hk]; exact hinv.1 k
          have hinv2 : SortInv g v2 r2 :=
            visit_conns_inv g _ (fun a b c d e hh => ih a b c d e hh) _ _ _ _ _ _ hvc hinv1
          have hok2 : VisitOk (ainsert v id true) r v2 r2 :=
            visit_conns_ok _ (fun a b c d e hh => (visit_node_ok g fuel' a b c d e hh).1)
              _ _ _ _ _ _ hvc
          have hpreds : ∀ c ∈ g.connections, c.to_node = id →
              alookup v2 c.from_node = some false :=
            visit_conns_preds _ (fun a b c d e hh => visit_node_ok g fuel' a b c d e hh)
              _ _ _ _ _ _ hvc
          have hid_true : alookup v2 id = some true := by
            rw [hok2.trueEq id, alookup_ainsert, if_pos rfl]
          have hid_notmem2 : id ∉ r2 := fun hmem => by
            rw [← hinv2.1 id] at hmem
            rw [hid_true] at hmem
            exact absurd hmem (by simp)
          refine ⟨?_, ?_, ?_⟩
          · intro k
            rw [alookup_ainsert]
            by_cases hk : k = id
            · subst hk
              rw [if_pos rfl]
              simp only [Option.some.injEq]
              exact ⟨fun _ => List.mem_append_right _ (by simp), fun _ => trivial⟩
            · rw [if_neg hk, hinv2.1 k, List.mem_append]
              exact ⟨fun hm => Or.inl hm, fun hm => hm.resolve_right (by simp [hk])⟩
          · rw [← List.concat_eq_append]
            exact List.Nodup.concat hid_notmem2 hinv2.2.1
          · intro c hcmem hcto
            rcases List.mem_append.mp hcto with hto2 | hto_id
            · obtain ⟨hfrom, hbef⟩ := hinv2.2.2 c hcmem hto2
              exact ⟨List.mem_append_left _ hfrom, beforeIn_append _ hbef⟩
            · have hto_id' : c.to_node = id := by simpa using hto_id
              have hfrom2 : alookup v2 c.from_node = some false := hpreds c hcmem hto_id'
              have hfrom_mem : c.from_node ∈ r2 := (hinv2.1 _).mp hfrom2
              refine ⟨List.mem_append_left _ hfrom_mem, ?_⟩
              rw [hto_id']
              exact beforeIn_push id hfrom_mem

/-! ### Fuel adequacy -/

/-- Number of ids the DFS can still open from state `v`. -/
def unvisited (g : NodeGraph) (v : VisitMap) : ℕ :=
  ((visit_ids g).filter (fun k => (alookup v k).isNone)).length

lemma unvisited_le (g : NodeGraph) (v : VisitMap) :
    unvisited g v ≤ (visit_ids g).length :=
  List.length_filter_le _ _

lemma unvisited_mono (g : NodeGraph) (v v' : VisitMap)
    (h : ∀ k, (alookup v k).isSome → (alookup v' k).isSome) :
    unvisited g v' ≤ unvisited g v := by
  unfold unvisited
  rw [← List.countP_eq_length_filter, ← List.countP_eq_length_filter]
  refine List.countP_mono_left ?_
  intro k _ hk
  simp only [Option.isNone_iff_eq_none] at hk ⊢
  by_contra hne
  have hs : (alookup v k).isSome := by
    cases hval : alookup v k
    · exact absurd hval hne
    · simp
  have := h k hs
  rw [hk] at this
  exact absurd this (by simp)

lemma filter_length_insert_new (l : List ℕ) (P Q : ℕ → Bool) (id : ℕ)
    (hmem : id ∈ l) (hnd : l.Nodup) (hP : P id = true) (hQ : Q id = false)
    (hSame : ∀ k, k ≠ id → Q k = P k) :
    (l.filter Q).length + 1 ≤ (l.filter P).length := by
  induction l with
  | nil => exact absurd hmem (List.not_mem_nil id)
  | cons a t ih =>
    rw [List.nodup_cons] at hnd
    rcases List.mem_cons.mp hmem with rfl | hmem_t
    · rw [List.filter_cons, List.filter_cons, hP, hQ, if_pos rfl, if_neg (by simp)]
      have hmono : (t.filter Q).length ≤ (t.filter P).length := by
        rw [← List.countP_eq_length_filter, ← List.countP_eq_length_filter]
        refine List.countP_mono_left ?_
        intro k hk hQk
        rw [← hSame k (fun hkid => hnd.1 (hkid ▸ hk))]
        exact hQk
      rw [List.length_cons]
      omega
    · rw [List.filter_cons, List.filter_cons]
      have hne : a ≠ id := fun haid => hnd.1 (haid ▸ hmem_t)
      rw [hSame a hne]
      have hrec := ih hmem_t hnd.2
      cases hPa : P a
      · rw [if_neg (by simp), if_neg (by simp)]
        exact hrec
      · rw [if_pos rfl, if_pos rfl, List.length_cons, List.length_cons]
        omega

lemma unvisited_insert (g : NodeGraph) (v : VisitMap) (id : ℕ) (b : Bool)
    (hmem : id ∈ visit_ids g) (hl : alookup v id = Option.none) :
    unvisited g (ainsert v id b) + 1 ≤ unvisited g v := by
  unfold unvisited
  refine filter_length_insert_new _ _ _ id hmem (List.nodup_dedup _) ?_ ?_ ?_
  · rw [hl]; rfl
  · rw [alookup_ainsert, if_pos rfl]; rfl
  · intro k hk
    rw [alookup_ainsert, if_neg hk]

lemma from_node_mem_visit_ids (g : NodeGraph) (c : Connection)
    (hc : c ∈ g.connections) : c.from_node ∈ visit_ids g := by
  unfold visit_ids
  rw [List.mem_dedup, List.mem_append]
  exact Or.inr (List.mem_map.mpr ⟨c, hc, rfl⟩)

lemma node_id_mem_visit_ids (g : NodeGraph) (id : ℕ)
    (hid : id ∈ g.nodes.map Prod.fst) : id ∈ visit_ids g := by
  unfold visit_ids
  rw [List.mem_dedup, List.mem_append]
  exact Or.inl hid

lemma visit_conns_some (g : NodeGraph) (fuel' : ℕ)
    (Hsome : ∀ id v r, id ∈ visit_ids g → unvisited g v < fuel' →
      (visit_node g fuel' id v r).isSome) :
    ∀ (conns : List Connection), (∀ c ∈ conns, c ∈ g.connections) →
      ∀ (nid : ℕ) (v : VisitMap) (r : List ℕ), unvisited g v < fuel' →
        (visit_conns (visit_node g fuel') conns nid v r).isSome := by
  intro conns
  induction conns with
  | nil => intro _ nid v r _; simp [visit_conns]
  | cons c rest ih =>
    intro hsub nid v r hbound
    unfold visit_conns
    by_cases hc : c.to_node = nid
    · rw [if_pos hc]
      have hfmem : c.from_node ∈ visit_ids g :=
        from_node_mem_visit_ids g c (hsub c (by simp))
      have hsome := Hsome c.from_node v r hfmem hbound
      cases hv : visit_node g fuel' c.from_node v r with
      | none => rw [hv] at hsome; exact absurd hsome (by simp)
      | some res =>
        cases res with
        | error e => simp
        | ok p =>
          obtain ⟨v2, r2⟩ := p
          have hok := (visit_node_ok g fuel' _ _ _ _ _ hv).1
          have hb2 : unvisited g v2 < fuel' :=
            lt_of_le_of_lt (unvisited_mono g v v2 hok.keysKeep) hbound
          exact ih (fun c' hc' => hsub c' (by simp [hc'])) nid v2 r2 hb2
    · rw [if_neg hc]
      exact ih (fun c' hc' => hsub c' (by simp [hc'])) nid v r hbound

lemma visit_node_some (g : NodeGraph) :
    ∀ (fuel : ℕ) (id : ℕ) (v : VisitMap) (r : List ℕ),
      id ∈ visit_ids g → unvisited g v < fuel → (visit_node g fuel id v r).isSome := by
  intro fuel
  induction fuel with
  | zero => intro id v r _ hbound; omega
  | succ fuel' ih =>
    intro id v r hid hbound
    unfold visit_node
    cases hl : alookup v id with
    | some b => cases b <;> simp
    | none =>
      have hb1 : unvisited g (ainsert v id true) < fuel' := by
        have := unvisited_insert g v id true hid hl
        omega
      have hsome := visit_conns_some g fuel' (fun a b c hm hb => ih a b c hm hb)
        g.connections (fun _ hc => hc) id (ainsert v id true) r hb1
      cases hvc : visit_conns (visit_node g fuel') g.connections id (ainsert v id true) r with
      | none => rw [hvc] at hsome; exact absurd hsome (by simp)
      | some res => cases res with
        | error e => simp
        | ok p => simp

lemma sort_fold_some (g : NodeGraph) :
    ∀ (ids : List ℕ) (v : VisitMap) (r : List ℕ),
      (∀ id ∈ ids, id ∈ visit_ids g) → (sort_fold g ids v r).isSome := by
  intro ids
  induction ids with
  | nil => intro v r _; simp [sort_fold]
  | cons id rest ih =>
    intro v r hids
    unfold sort_fold
    have hbound : unvisited g v < visit_fuel g :=
      lt_of_le_of_lt (unvisited_le g v) (by unfold visit_fuel; omega)
    have hsome := visit_node_some g (visit_fuel g) id v r (hids id (by simp)) hbound
    cases hv : visit_node g (visit_fuel g) id v r with
    | none => rw [hv] at hsome; exact absurd hsome (by simp)
    | some res => cases res with
      | error e => simp
      | ok p =>
        obtain ⟨v2, r2⟩ := p
        exact ih v2 r2 (fun i hi => hids i (by simp [hi]))

/-- The fuel supplied by `topological_sort` always suffices: the sort
never returns the out-of-fuel marker, i.e. the Rust recursion terminates. -/
lemma topological_sort_some (g : NodeGraph) : (topological_sort g).isSome := by
  unfold topological_sort
  have hsome := sort_fold_some g (g.nodes.map Prod.fst) [] []
    (fun id hid => node_id_mem_visit_ids g id hid)
  cases hv : sort_fold g (g.nodes.map Prod.fst) [] [] with
  | none => rw [hv] at hsome; exact absurd hsome (by simp)
  | some res => cases res with
    | error e => simp
    | ok p => simp

/-! ### Soundness of a successful sort -/

lemma sort_fold_falseKeep (g : NodeGraph) :
    ∀ (ids : List ℕ) (v : VisitMap) (r : List ℕ) (v' : VisitMap) (r' : List ℕ),
      sort_fold g ids v r = some (Except.ok (v', r')) →
      ∀ k, alookup v k = some false → alookup v' k = some false := by
  intro ids
  induction ids with
  | nil =>
    intro v r v' r' h k hk
    simp only [sort_fold, Option.some.injEq, Except.ok.injEq, Prod.mk.injEq] at h
    obtain ⟨rfl, rfl⟩ := h
    exact hk
  | cons id rest ih =>
    intro v r v' r' h k hk
    unfold sort_fold at h
    cases hv : visit_node g (visit_fuel g) id v r with
    | none => rw [hv] at h; exact absurd h (by simp)
    | some res =>
      rw [hv] at h
      cases res with
      | error e => exact absurd h (by simp)
      | ok p =>
        obtain ⟨v2, r2⟩ := p
        exact ih v2 r2 v' r' h k
          ((visit_node_ok g (visit_fuel g) _ _ _ _ _ hv).1.falseKeep k hk)

lemma sort_fold_spec (g : NodeGraph) :
    ∀ (ids : List ℕ) (v : VisitMap) (r : List ℕ) (v' : VisitMap) (r' : List ℕ),
      sort_fold g ids v r = some (Except.ok (v', r')) → SortInv g v r →
      SortInv g v' r' ∧ (∀ id ∈ ids, alookup v' id = some false) := by
  intro ids
  induction ids with
  | nil =>
    intro v r v' r' h hinv
    simp only [sort_fold, Option.some.injEq, Except.ok.injEq, Prod.mk.injEq] at h
    obtain ⟨rfl, rfl⟩ := h
    exact ⟨hinv, fun id hid => absurd hid (List.not_mem_nil id)⟩
  | cons id rest ih =>
    intro v r v' r' h hinv
    unfold sort_fold at h
    cases hv : visit_node g (visit_fuel g) id v r with
    | none => rw [hv] at h; exact absurd h (by simp)
    | some res =>
      rw [hv] at h
      cases res with
      | error e => exact absurd h (by simp)
      | ok p =>
        obtain ⟨v2, r2⟩ := p
        have hok := visit_node_ok g (visit_fuel g) _ _ _ _ _ hv
        have hinv2 := visit_node_inv g (visit_fuel g) _ _ _ _ _ hv hinv
        obtain ⟨hinv', hdone⟩ := ih v2 r2 v' r' h hinv2
        refine ⟨hinv', ?_⟩
        intro i hi
        rcases List.mem_cons.mp hi with rfl | hmem
        · exact sort_fold_falseKeep g rest v2 r2 v' r' h i hok.2
        · exact hdone i hmem

lemma SortInv_nil (g : NodeGraph) : SortInv g [] [] :=
  ⟨fun k => by simp [alookup], by simp, fun c _ hc => absurd hc (List.not_mem_nil _)⟩

lemma topological_sort_ok (g : NodeGraph) (order : List ℕ)
    (h : topological_sort g = some (Except.ok order)) :
    order.Nodup ∧ OrderOk g order ∧ ∀ id ∈ g.nodes.map Prod.fst, id ∈ order := by
  unfold topological_sort at h
  cases hv : sort_fold g (g.nodes.map Prod.fst) [] [] with
  | none => rw [hv] at h; exact absurd h (by simp)
  | some res =>
    rw [hv] at h
    cases res with
    | error e => exact absurd h (by simp)
    | ok p =>
      obtain ⟨v', r'⟩ := p
      simp only [Option.some.injEq, Except.ok.injEq] at h
      subst h
      obtain ⟨hinv, hdone⟩ := sort_fold_spec g _ [] [] v' _ hv (SortInv_nil g)
      exact ⟨hinv.2.1, hinv.2.2, fun id hid => (hinv.1 id).mp (hdone id hid)⟩

lemma reach_mem_before (g : NodeGraph) (r : List ℕ) (hnd : r.Nodup)
    (hord : OrderOk g r) :
    ∀ a b, Relation.TransGen (Edge g) a b → b ∈ r → a ∈ r ∧ beforeIn r a b := by
  intro a b h
  induction h with
  | single he =>
    intro hb
    obtain ⟨c, hc, hfrom, hto⟩ := he
    have := hord c hc (by rw [hto]; exact hb)
    rw [hfrom, hto] at this
    exact this
  | tail hab hbc ih =>
    intro hb
    obtain ⟨c, hc, hfrom, hto⟩ := hbc
    have hu := hord c hc (by rw [hto]; exact hb)
    rw [hfrom, hto] at hu
    obtain ⟨ha, hbefa⟩ := ih hu.1
    exact ⟨ha, beforeIn_trans hnd hbefa hu.2⟩

lemma no_cycle_of_orderOk (g : NodeGraph) (r : List ℕ) (hnd : r.Nodup)
    (hord : OrderOk g r) (v : ℕ) (hv : v ∈ r) :
    ¬ Relation.TransGen (Edge g) v v := by
  intro hcyc
  obtain ⟨_, hbef⟩ := reach_mem_before g r hnd hord v v hcyc hv
  exact beforeIn_irrefl hnd v hbef

/-! ### Completeness: a sort error implies a cycle, with the cycle message -/

lemma visit_conns_err_msg (visit : ℕ → VisitMap → List ℕ → VisitRes)
    (Hmsg : ∀ id v r e, visit id v r = some (Except.error e) →
      e = "Cycle detected in graph") :
    ∀ (conns : List Connection) (nid : ℕ) (v : VisitMap) (r : List ℕ) (e : String),
      visit_conns visit conns nid v r = some (Except.error e) →
      e = "Cycle detected in graph" := by
  intro conns
  induction conns with
  | nil => intro nid v r e h; exact absurd h (by simp [visit_conns])
  | cons c rest ih =>
    intro nid v r e h
    unfold visit_conns at h
    by_cases hc : c.to_node = nid
    · rw [if_pos hc] at h
      cases hv : visit c.from_node v r with
      | none => rw [hv] at h; exact absurd h (by simp)
      | some res =>
        rw [hv] at h
        cases res with
        | error e' =>
          simp only [Option.some.injEq, Except.error.injEq] at h
          subst h
          exact Hmsg _ _ _ _ hv
        | ok p =>
          obtain ⟨v2, r2⟩ := p
          exact ih _ _ _ _ h
    · rw [if_neg hc] at h
      exact ih _ _ _ _ h

lemma visit_node_err_msg (g : NodeGraph) :
    ∀ (fuel : ℕ) (id : ℕ) (v : VisitMap) (r : List ℕ) (e : String),
      visit_node g fuel id v r = some (Except.error e) →
      e = "Cycle detected in graph" := by
  intro fuel
  induction fuel with
  | zero => intro id v r e h; exact absurd h (by simp [visit_node])
  | succ fuel' ih =>
    intro id v r e h
    unfold visit_node at h
    cases hl : alookup v id with
    | some b =>
      rw [hl] at h
      cases b
      · exact absurd h (by simp)
      · simp only [Option.some.injEq, Except.error.injEq] at h
        exact h.symm
    | none =>
      rw [hl] at h
      cases hvc : visit_conns (visit_node g fuel') g.connections id (ainsert v id true) r with
      | none => rw [hvc] at h; exact absurd h (by simp)
      | some res =>
        rw [hvc] at h
        cases res with
        | error e' =>
          simp only [Option.some.injEq, Except.error.injEq] at h
          subst h
          exact visit_conns_err_msg _ (fun a b c d hh => ih a b c d hh) _ _ _ _ _ hvc
        | ok p => obtain ⟨v2, r2⟩ := p; exact absurd h (by simp)

lemma topological_sort_err_msg (g : NodeGraph) :
    ∀ (e : String), topological_sort g = some (Except.error e) →
      e = "Cycle detected in graph" := by
  suffices hsf : ∀ (ids : List ℕ) (v : VisitMap) (r : List ℕ) (e : String),
      sort_fold g ids v r = some (Except.error e) → e = "Cycle detected in graph" by
    intro e h
    unfold topological_sort at h
    cases hv : sort_fold g (g.nodes.map Prod.fst) [] [] with
    | none => rw [hv] at h; exact absurd h (by simp)
    | some res =>
      rw [hv] at h
      cases res with
      | error e' =>
        simp only [Option.some.injEq, Except.error.injEq] at h
        subst h
        exact hsf _ _ _ _ hv
      | ok p => exact absurd h (by simp)
  intro ids
  induction ids with
  | nil => intro v r e h; exact absurd h (by simp [sort_fold])
  | cons id rest ih =>
    intro v r e h
    unfold sort_fold at h
    cases hv : visit_node g (visit_fuel g) id v r with
    | none => rw [hv] at h; exact absurd h (by simp)
    | some res =>
      rw [hv] at h
      cases res with
      | error e' =>
        simp only [Option.some.injEq, Except.error.injEq] at h
        subst h
        exact visit_node_err_msg g _ _ _ _ _ hv
      | ok p => obtain ⟨v2, r2⟩ := p; exact ih _ _ _ h

/-- All in-progress markers are reachable from the node under visit. -/
def ReachTrue (g : NodeGraph) (w : ℕ) (v : VisitMap) : Prop :=
  ∀ k, alookup v k = some true → Relation.ReflTransGen (Edge g) w k

lemma visit_conns_err_cycle (g : NodeGraph) (fuel' : ℕ)
    (Herr : ∀ id v r e, ReachTrue g id v →
      (alookup v id = some true → ∃ z, Relation.TransGen (Edge g) z z) →
      visit_node g fuel' id v r = some (Except.error e) →
      ∃ z, Relation.TransGen (Edge g) z z) :
    ∀ (conns : List Connection), (∀ c ∈ conns, c ∈ g.connections) →
      ∀ (nid : ℕ) (v : VisitMap) (r : List ℕ) (e : String), ReachTrue g nid v →
        visit_conns (visit_node g fuel') conns nid v r = some (Except.error e) →
        ∃ z, Relation.TransGen (Edge g) z z := by
  intro conns
  induction conns with
  | nil => intro _ nid v r e _ h; exact absurd h (by simp [visit_conns])
  | cons c rest ih =>
    intro hsub nid v r e hreach h
    unfold visit_conns at h
    by_cases hc : c.to_node = nid
    · rw [if_pos hc] at h
      have hedge : Edge g c.from_node nid := ⟨c, hsub c (by simp), rfl, hc⟩
      cases hv : visit_node g fuel' c.from_node v r with
      | none => rw [hv] at h; exact absurd h (by simp)
      | some res =>
        rw [hv] at h
        cases res with
        | error e' =>
          refine Herr c.from_node v r e' ?_ ?_ hv
          · intro k hk
            exact Relation.ReflTransGen.head hedge (hreach k hk)
          · intro htrue
            exact ⟨c.from_node, Relation.TransGen.head' hedge (hreach _ htrue)⟩
        | ok p =>
          obtain ⟨v2, r2⟩ := p
          have hok := (visit_node_ok g fuel' _ _ _ _ _ hv).1
          refine ih (fun c' hc' => hsub c' (by simp [hc'])) nid v2 r2 e ?_ h
          intro k hk
          exact hreach k ((hok.trueEq k).mp hk)
    · rw [if_neg hc] at h
      exact ih (fun c' hc' => hsub c' (by simp [hc'])) nid v r e hreach h

lemma visit_node_err_cycle (g : NodeGraph) :
    ∀ (fuel : ℕ) (id : ℕ) (v : VisitMap) (r : List ℕ) (e : String),
      ReachTrue g id v →
      (alookup v id = some true → ∃ z, Relation.TransGen (Edge g) z z) →
      visit_node g fuel id v r = some (Except.error e) →
      ∃ z, Relation.TransGen (Edge g) z z := by
  intro fuel
  induction fuel with
  | zero => intro id v r e _ _ h; exact absurd h (by simp [visit_node])
  | succ fuel' ih =>
    intro id v r e hreach hself h
    unfold visit_node at h
    cases hl : alookup v id with
    | some b =>
      rw [hl] at h
      cases b
      · exact absurd h (by simp)
      · exact hself hl
    | none =>
      rw [hl] at h
      cases hvc : visit_conns (visit_node g fuel') g.connections id (ainsert v id true) r with
      | none => rw [hvc] at h; exact absurd h (by simp)
      | some res =>
        rw [hvc] at h
        cases res with
        | error e' =>
          refine visit_conns_err_cycle g fuel' (fun a b c d h1 h2 hh => ih a b c d h1 h2 hh)
            g.connections (fun _ hc => hc) id (ainsert v id true) r e' ?_ hvc
          intro k hk
          rw [alookup_ainsert] at hk
          by_cases hkid : k = id
          · subst hkid; exact Relation.ReflTransGen.refl
          · rw [if_neg hkid] at hk
            exact hreach k hk
        | ok p => obtain ⟨v2, r2⟩ := p; exact absurd h (by simp)

lemma topological_sort_err_cycle (g : NodeGraph) (e : String)
    (h : topological_sort g = some (Except.error e)) :
    ∃ z, Relation.TransGen (Edge g) z z := by
  suffices hsf : ∀ (ids : List ℕ) (v : VisitMap) (r : List ℕ) (e : String),
      (∀ k, alookup v k ≠ some true) →
      sort_fold g ids v r = some (Except.error e) →
      ∃ z, Relation.TransGen (Edge g) z z by
    unfold topological_sort at h
    cases hv : sort_fold g (g.nodes.map Prod.fst) [] [] with
    | none => rw [hv] at h; exact absurd h (by simp)
    | some res =>
      rw [hv] at h
      cases res with
      | error e' => exact hsf _ _ _ _ (fun k => by simp [alookup]) hv
      | ok p => exact absurd h (by simp)
  intro ids
  induction ids with
  | nil => intro v r e' _ h'; exact absurd h' (by simp [sort_fold])
  | cons id rest ih =>
    intro v r e' hnt h'
    unfold sort_fold at h'
    cases hv : visit_node g (visit_fuel g) id v r with
    | none => rw [hv] at h'; exact absurd h' (by simp)
    | some res =>
      rw [hv] at h'
      cases res with
      | error e2 =>
        refine visit_node_err_cycle g (visit_fuel g) id v r e2 ?_ ?_ hv
        · intro k hk; exact absurd hk (hnt k)
        · intro hk; exact absurd hk (hnt id)
      | ok p =>
        obtain ⟨v2, r2⟩ := p
        have hok := (visit_node_ok g (visit_fuel g) _ _ _ _ _ hv).1
        refine ih v2 r2 e' ?_ h'
        intro k hk
        exact hnt k ((hok.trueEq k).mp hk)

/-- C3: for every graph with a directed cycle through one of its nodes,
`execute` fails with the cycle error: the output cache stays empty (no
node is evaluated into a returned output) and no image is returned. -/
theorem C3_cycle_aborts (g : NodeGraph) (F : FloatOps) (st : Executor)
    (input_images : List (ℕ × ImageData)) (v : ℕ)
    (hv : v ∈ g.nodes.map Prod.fst) (hcyc : Relation.TransGen (Edge g) v v) :
    Executor.execute F st g input_images =
      some ({ outputs := [] }, Except.error "Cycle detected in graph") := by
  have hsome := topological_sort_some g
  cases ht : topological_sort g with
  | none => rw [ht] at hsome; exact absurd hsome (by simp)
  | some res =>
    cases res with
    | error e =>
      have hmsg : e = "Cycle detected in graph" := topological_sort_err_msg g e ht
      unfold Executor.execute
      rw [ht, hmsg]
    | ok order =>
      exfalso
      obtain ⟨hnd, hord, hmem⟩ := topological_sort_ok g order ht
      exact no_cycle_of_orderOk g order hnd hord v (hmem v hv) hcyc

/-- 1×1 graph with a self-loop connection, for the C3 witness. -/
def cgCyc : NodeGraph :=
  { nodes := [(1, { id := 1, node_type := NodeType.group, properties := NodeProperties.other })]
    connections := [⟨1, 0, 1, 0⟩] }

/-- Witness for C3: the concrete self-loop graph aborts with the cycle
error and an empty cache. -/
theorem C3_witness :
    Executor.execute F0 ⟨[]⟩ cgCyc [] =
      some ({ outputs := [] }, Except.error "Cycle detected in graph") :=
  C3_cycle_aborts cgCyc F0 ⟨[]⟩ [] 1 (by simp [cgCyc])
    (Relation.TransGen.single ⟨⟨1, 0, 1, 0⟩, by simp [cgCyc], rfl, rfl⟩)

/-- C4: for every acyclic graph the executor terminates — the sort
succeeds with an order containing every node of the graph exactly once in
which every connection's source precedes its destination, and `execute`
returns a value (never the out-of-fuel marker of the model). -/
theorem C4_acyclic_topological (g : NodeGraph)
    (hacyc : ∀ z : ℕ, ¬ Relation.TransGen (Edge g) z z) :
    (∃ order, topological_sort g = some (Except.ok order) ∧
      (∀ id ∈ g.nodes.map Prod.fst, order.count id = 1) ∧
      (∀ c ∈ g.connections, c.to_node ∈ order →
        c.from_node ∈ order ∧ beforeIn order c.from_node c.to_node)) ∧
    (∀ (F : FloatOps) (st : Executor) (input_images : List (ℕ × ImageData)),
      ∃ res, Executor.execute F st g input_images = some res) := by
  have hsome := topological_sort_some g
  cases ht : topological_sort g with
  | none => rw [ht] at hsome; exact absurd hsome (by simp)
  | some res =>
    cases res with
    | error e =>
      exfalso
      obtain ⟨z, hz⟩ := topological_sort_err_cycle g e ht
      exact hacyc z hz
    | ok order =>
      obtain ⟨hnd, hord, hmem⟩ := topological_sort_ok g order ht
      constructor
      · refine ⟨order, rfl, ?_, ?_⟩
        · intro id hid
          exact List.count_eq_one_of_mem hnd (hmem id hid)
        · intro c hc hto
          exact hord c hc hto
      · intro F st input_images
        unfold Executor.execute
        rw [ht]
        dsimp only
        rcases hrn : run_nodes F g input_images order [] with ⟨outs, erropt⟩
        cases erropt with
        | none => exact ⟨_, rfl⟩
        | some e => exact ⟨_, rfl⟩

/-- Two isolated nodes, no connections: a concrete acyclic graph. -/
def cgAcyc : NodeGraph :=
  { nodes := [(1, { id := 1, node_type := NodeType.text, properties := NodeProperties.text "a" }),
      (2, { id := 2, node_type := NodeType.text, properties := NodeProperties.text "b" })]
    connections := [] }

lemma cgAcyc_acyclic : ∀ z : ℕ, ¬ Relation.TransGen (Edge cgAcyc) z z := by
  have hnoedge : ∀ a b : ℕ, ¬ Edge cgAcyc a b := by
    rintro a b ⟨c, hc, _⟩
    exact absurd hc (List.not_mem_nil c)
  intro z hz
  cases hz with
  | single h => exact hnoedge _ _ h
  | tail h1 h2 => exact hnoedge _ _ h2

/-- Witness for C4 at a concrete acyclic graph. -/
theorem C4_witness :
    (∃ order, topological_sort cgAcyc = some (Except.ok order) ∧
      (∀ id ∈ cgAcyc.nodes.map Prod.fst, order.count id = 1) ∧
      (∀ c ∈ cgAcyc.connections, c.to_node ∈ order →
        c.from_node ∈ order ∧ beforeIn order c.from_node c.to_node)) ∧
    (∀ (F : FloatOps) (st : Executor) (input_images : List (ℕ × ImageData)),
      ∃ res, Executor.execute F st cgAcyc input_images = some res) :=
  C4_acyclic_topological cgAcyc cgAcyc_acyclic

/-! ### C9 — determinism / idempotence of execute -/

/-- C9: `execute` is a pure function of the graph and the external input
map: the executor's previous output cache is cleared on entry, so two runs
from arbitrary prior states produce identical results — the same error, or
images equal byte for byte (reproducible grain included, since its noise
is a pure function of the explicit seed). -/
theorem C9_execute_deterministic (F : FloatOps) (g : NodeGraph)
    (input_images : List (ℕ × ImageData)) (st1 st2 : Executor) :
    Executor.execute F st1 g input_images = Executor.execute F st2 g input_images := rfl

/-! ### C1 — the result-selection convention of execute -/

/-- The image a processing (Adjust/Effects) entry contributes to the final
scan. -/
def proc_image (outputs : List (ℕ × NodeOutput)) (p : ℕ × Node) : Option ImageData :=
  match p.2.node_type with
  | NodeType.adjust =>
    (match alookup outputs p.1 with
     | some (NodeOutput.image img) => some img
     | _ => Option.none)
  | NodeType.effects =>
    (match alookup outputs p.1 with
     | some (NodeOutput.image img) => some img
     | _ => Option.none)
  | _ => Option.none

/-- The image an Image-source entry contributes to the final scan. -/
def src_image (outputs : List (ℕ × NodeOutput)) (p : ℕ × Node) : Option ImageData :=
  match p.2.node_type with
  | NodeType.image =>
    (match alookup outputs p.1 with
     | some (NodeOutput.image img) => some img
     | _ => Option.none)
  | _ => Option.none

/-- Image output of the **last** Adjust/Effects node in scan order. -/
def last_processing_image (outputs : List (ℕ × NodeOutput))
    (nodes : List (ℕ × Node)) : Option ImageData :=
  nodes.reverse.findSome? (proc_image outputs)

/-- Image output of the **first** Image node in scan order. -/
def first_source_image (outputs : List (ℕ × NodeOutput))
    (nodes : List (ℕ × Node)) : Option ImageData :=
  nodes.findSome? (src_image outputs)

/-- The convention the code actually implements: last qualifying
Adjust/Effects image, else first qualifying Image-source image. -/
def conventional_result (outputs : List (ℕ × NodeOutput))
    (nodes : List (ℕ × Node)) : Option ImageData :=
  match last_processing_image outputs nodes with
  | some img => some img
  | Option.none => first_source_image outputs nodes

/-- Modelled from the claim's words: the **first** qualifying image under
the priority convention — first Adjust/Effects node holding an image
output, else first Image node holding one. -/
def first_qualifying (outputs : List (ℕ × NodeOutput))
    (nodes : List (ℕ × Node)) : Option ImageData :=
  match nodes.findSome? (proc_image outputs) with
  | some img => some img
  | Option.none => nodes.findSome? (src_image outputs)

lemma final_scan_spec (outputs : List (ℕ × NodeOutput)) :
    ∀ (nodes : List (ℕ × Node)) (acc : Option ImageData),
      nodes.foldl (fun result p =>
        match p.2.node_type with
        | NodeType.adjust =>
          match alookup outputs p.1 with
          | some (NodeOutput.image img) => some img
          | _ => result
        | NodeType.effects =>
          match alookup outputs p.1 with
          | some (NodeOutput.image img) => some img
          | _ => result
        | NodeType.image =>
          match result with
          | Option.none =>
            match alookup outputs p.1 with
            | some (NodeOutput.image img) => some img
            | _ => Option.none
          | some rimg => some rimg
        | _ => result) acc =
      match last_processing_image outputs nodes with
      | some img => some img
      | Option.none =>
        match acc with
        | some r => some r
        | Option.none => first_source_image outputs nodes := by
  intro nodes
  induction nodes with
  | nil =>
    intro acc
    simp only [List.foldl_nil, last_processing_image, first_source_image,
      List.reverse_nil, List.findSome?_nil]
    cases acc <;> rfl
  | cons p rest ih =>
    intro acc
    rw [List.foldl_cons, ih]
    have hlp : last_processing_image outputs (p :: rest) =
        (last_processing_image outputs rest).or (proc_image outputs p) := by
      unfold last_processing_image
      rw [List.reverse_cons, List.findSome?_append]
      cases hpp : proc_image outputs p <;> simp [List.findSome?_cons, hpp]
    have hfs : first_source_image outputs (p :: rest) =
        match src_image outputs p with
        | some img => some img
        | Option.none => first_source_image outputs rest := by
      unfold first_source_image
      rw [List.findSome?_cons]
      cases hsp : src_image outputs p <;> simp [hsp]
    rw [hlp, hfs]
    obtain ⟨id, node⟩ := p
    cases hnt : node.node_type <;>
      simp only [proc_image, src_image, hnt] <;>
      cases hlk : alookup outputs id
    all_goals
      first
        | (cases hlp2 : last_processing_image outputs rest <;> cases acc <;> rfl)
        | (rename_i val
           cases val <;> cases hlp2 : last_processing_image outputs rest <;>
             cases acc <;> rfl)

/-- C1 (amended): whenever `execute` succeeds, the returned image is the
output of the **last** Adjust/Effects node of the scan holding an image
output; only if no Adjust/Effects node holds one is it the **first**
Image node's cached image; otherwise no image is returned. -/
theorem C1_result_convention (F : FloatOps) (st : Executor) (g : NodeGraph)
    (input_images : List (ℕ × ImageData)) (st' : Executor) (r : Option ImageData)
    (h : Executor.execute F st g input_images = some (st', Except.ok r)) :
    r = conventional_result st'.outputs g.nodes := by
  unfold Executor.execute at h
  cases ht : topological_sort g with
  | none => rw [ht] at h; exact absurd h (by simp)
  | some res =>
    rw [ht] at h
    cases res with
    | error e => simp only [Option.some.injEq, Prod.mk.injEq] at h; exact absurd h.2 (by simp)
    | ok order =>
      dsimp only at h
      rcases hrn : run_nodes F g input_images order [] with ⟨outs, erropt⟩
      rw [hrn] at h
      cases erropt with
      | some e =>
        simp only [Option.some.injEq, Prod.mk.injEq] at h
        exact absurd h.2 (by simp)
      | none =>
        simp only [Option.some.injEq, Prod.mk.injEq, Except.ok.injEq] at h
        obtain ⟨hst, hr⟩ := h
        subst hst
        rw [← hr]
        unfold final_scan
        rw [final_scan_spec]
        unfold conventional_result
        cases last_processing_image outs g.nodes <;> rfl

/-- Image-source node for the concrete C1 graph. -/
def imgNode (i tex : ℕ) : Node :=
  { id := i, node_type := NodeType.image, properties := NodeProperties.imageProps (some tex) }

/-- All-zero Effects node for the concrete C1 graph. -/
def fxNode (i : ℕ) : Node :=
  { id := i, node_type := NodeType.effects, properties := NodeProperties.effects zeroFx }

/-- Two image sources feeding two pass-through Effects nodes. -/
def cg1 : NodeGraph :=
  { nodes := [(1, imgNode 1 100), (2, imgNode 2 200), (3, fxNode 3), (4, fxNode 4)]
    connections := [⟨1, 0, 3, 0⟩, ⟨2, 0, 4, 0⟩] }

def cinp1 : List (ℕ × ImageData) := [(100, imgA), (200, imgB)]

/-- The output cache `execute` builds on `cg1`. -/
def outs1 : List (ℕ × NodeOutput) :=
  [(1, NodeOutput.image imgA), (2, NodeOutput.image imgB),
   (3, NodeOutput.image imgA), (4, NodeOutput.image imgB)]

/-- C1 counterexample: on `cg1` both Effects nodes hold image outputs;
the first such node (node 3) holds `imgA`, but `execute` returns `imgB`
(the last one) — the claim's "first qualifying image" rule is wrong. -/
theorem C1_counterexample :
    Executor.execute F0 ⟨[]⟩ cg1 cinp1 =
        some (⟨outs1⟩, Except.ok (some imgB)) ∧
      first_qualifying outs1 cg1.nodes = some imgA ∧
      imgA ≠ imgB :=
  ⟨rfl, rfl, by decide⟩

/-- Witness for C1's amended theorem at the concrete graph. -/
theorem C1_witness : some imgB = conventional_result outs1 cg1.nodes :=
  C1_result_convention F0 ⟨[]⟩ cg1 cinp1 ⟨outs1⟩ (some imgB) rfl

/-! ### C5 — stage order of the Adjust kernel -/

/-- Rec.709/601 luma used by the spec: `0.299R + 0.587G + 0.114B`. -/
def lumQ (p : ℚ × ℚ × ℚ) : ℚ := 0.299 * p.1 + 0.587 * p.2.1 + 0.114 * p.2.2

/-- Scale each channel about the luma pivot by a common factor. -/
def pivot_scale (m : ℚ) (p : ℚ × ℚ × ℚ) : ℚ × ℚ × ℚ :=
  (lumQ p + (p.1 - lumQ p) * m,
   lumQ p + (p.2.1 - lumQ p) * m,
   lumQ p + (p.2.2 - lumQ p) * m)

lemma lumQ_pivot_scale (m : ℚ) (p : ℚ × ℚ × ℚ) : lumQ (pivot_scale m p) = lumQ p := by
  simp only [pivot_scale, lumQ]
  ring

/-- Spec stage 1: exposure scaling by `2^(exposure/50)`. -/
def stage_exposure (F : FloatOps) (exposure : ℚ) (p : ℚ × ℚ × ℚ) : ℚ × ℚ × ℚ :=
  (p.1 * F.exp2 (exposure / 50), p.2.1 * F.exp2 (exposure / 50),
   p.2.2 * F.exp2 (exposure / 50))

/-- Spec stage 2: temperature/tint channel shift. -/
def stage_temp_tint (temperature tint : ℚ) (p : ℚ × ℚ × ℚ) : ℚ × ℚ × ℚ :=
  (p.1 + temperature / 100 * 0.1, p.2.1 + tint / 100 * 0.05,
   p.2.2 - temperature / 100 * 0.1)

/-- Spec stage 3: brightness addition. -/
def stage_brightness (brightness : ℚ) (p : ℚ × ℚ × ℚ) : ℚ × ℚ × ℚ :=
  (p.1 + brightness / 100, p.2.1 + brightness / 100, p.2.2 + brightness / 100)

/-- Spec stage 4: contrast about the 0.5 pivot. -/
def stage_contrast (contrast : ℚ) (p : ℚ × ℚ × ℚ) : ℚ × ℚ × ℚ :=
  ((p.1 - 0.5) * (1 + contrast / 100) + 0.5,
   (p.2.1 - 0.5) * (1 + contrast / 100) + 0.5,
   (p.2.2 - 0.5) * (1 + contrast / 100) + 0.5)

/-- Spec stage 5: saturation about the luma pivot. -/
def stage_saturation (saturation : ℚ) (p : ℚ × ℚ × ℚ) : ℚ × ℚ × ℚ :=
  pivot_scale (1 + saturation / 100) p

/-- Spec stage 6: vibrance, weighted inversely by the current saturation. -/
def stage_vibrance (vibrance : ℚ) (p : ℚ × ℚ × ℚ) : ℚ × ℚ × ℚ :=
  let max_rgb := max (max p.1 p.2.1) p.2.2
  let min_rgb := min (min p.1 p.2.1) p.2.2
  let current_sat := if 0 < max_rgb then (max_rgb - min_rgb) / max_rgb else 0
  pivot_scale (1 + vibrance / 100 * (1 - current_sat)) p

/-- Spec stage 7: highlights/shadows lift split at luma 0.5. -/
def stage_highlights_shadows (highlights shadows : ℚ) (p : ℚ × ℚ × ℚ) : ℚ × ℚ × ℚ :=
  if 0.5 < lumQ p then
    (p.1 + (lumQ p - 0.5) * 2 * (highlights / 200),
     p.2.1 + (lumQ p - 0.5) * 2 * (highlights / 200),
     p.2.2 + (lumQ p - 0.5) * 2 * (highlights / 200))
  else
    (p.1 + (0.5 - lumQ p) * 2 * (shadows / 200),
     p.2.1 + (0.5 - lumQ p) * 2 * (shadows / 200),
     p.2.2 + (0.5 - lumQ p) * 2 * (shadows / 200))

/-- Spec stage 8 as the claim words it: gamma power curve with exponent
`1/(1 + gamma/100)` — without the 0.1 floor the code applies. -/
def stage_gamma_claimed (F : FloatOps) (gamma : ℚ) (p : ℚ × ℚ × ℚ) : ℚ × ℚ × ℚ :=
  (F.pow (max p.1 0) (1 / (1 + gamma / 100)),
   F.pow (max p.2.1 0) (1 / (1 + gamma / 100)),
   F.pow (max p.2.2 0) (1 / (1 + gamma / 100)))

/-- Stage 8 as the code computes it: the exponent denominator is floored
at 0.1 (`(1.0 + gamma / 100.0).max(0.1)`). -/
def stage_gamma (F : FloatOps) (gamma : ℚ) (p : ℚ × ℚ × ℚ) : ℚ × ℚ × ℚ :=
  (F.pow (max p.1 0) (1 / max (1 + gamma / 100) 0.1),
   F.pow (max p.2.1 0) (1 / max (1 + gamma / 100) 0.1),
   F.pow (max p.2.2 0) (1 / max (1 + gamma / 100) 0.1))

/-- The claim's pipeline, stages in the claimed order with the claimed
gamma exponent. -/
def claimed_pipeline (F : FloatOps)
    (brightness contrast saturation exposure highlights shadows
      temperature tint vibrance gamma : ℚ) (p : ℚ × ℚ × ℚ) : ℚ × ℚ × ℚ :=
  stage_gamma_claimed F gamma
    (stage_highlights_shadows highlights shadows
      (stage_vibrance vibrance
        (stage_saturation saturation
          (stage_contrast contrast
            (stage_brightness brightness
              (stage_temp_tint temperature tint
                (stage_exposure F exposure p)))))))

/-- The amended pipeline: same stages and order, with the code's clamped
gamma exponent. -/
def amended_pipeline (F : FloatOps)
    (brightness contrast saturation exposure highlights shadows
      temperature tint vibrance gamma : ℚ) (p : ℚ × ℚ × ℚ) : ℚ × ℚ × ℚ :=
  stage_gamma F gamma
    (stage_highlights_shadows highlights shadows
      (stage_vibrance vibrance
        (stage_saturation saturation
          (stage_contrast contrast
            (stage_brightness brightness
              (stage_temp_tint temperature tint
                (stage_exposure F exposure p)))))))

/-- C5 (amended): the per-pixel body of `apply_adjustments` is exactly the
composition of the eight claimed stages in the claimed order, each stage
consuming the previous stage's output — with the gamma exponent clamped as
the code clamps it (`1 / max (1 + gamma/100) 0.1`). -/
theorem C5_stage_order (F : FloatOps)
    (brightness contrast saturation exposure highlights shadows
      temperature tint vibrance gamma : ℚ) (r0 g0 b0 : ℚ) :
    adjust_pixel F brightness contrast saturation exposure highlights shadows
        temperature tint vibrance gamma r0 g0 b0 =
      amended_pipeline F brightness contrast saturation exposure highlights shadows
        temperature tint vibrance gamma (r0, g0, b0) := by
  have hY : lumQ (stage_saturation saturation
      (stage_contrast contrast (stage_brightness brightness
        (stage_temp_tint temperature tint (stage_exposure F exposure (r0, g0, b0)))))) =
      lumQ (stage_contrast contrast (stage_brightness brightness
        (stage_temp_tint temperature tint (stage_exposure F exposure (r0, g0, b0))))) :=
    lumQ_pivot_scale _ _
  have hX : lumQ (stage_vibrance vibrance (stage_saturation saturation
      (stage_contrast contrast (stage_brightness brightness
        (stage_temp_tint temperature tint (stage_exposure F exposure (r0, g0, b0))))))) =
      lumQ (stage_contrast contrast (stage_brightness brightness
        (stage_temp_tint temperature tint (stage_exposure F exposure (r0, g0, b0))))) :=
    (lumQ_pivot_scale _ _).trans hY
  unfold amended_pipeline stage_gamma stage_highlights_shadows
  rw [hX]
  unfold stage_vibrance
  dsimp only
  unfold pivot_scale
  rw [hY]
  unfold stage_saturation
  unfold pivot_scale
  unfold adjust_pixel stage_contrast stage_brightness stage_temp_tint stage_exposure lumQ
  dsimp only

/-- Float library that reveals the gamma exponent: `pow x y = y`. -/
def F2 : FloatOps :=
  ⟨fun _ => 1, fun _ y => y, fun _ => 0, fun _ => 1, fun _ => 0, 314159 / 100000⟩

/-- C5 counterexample: at `gamma = -95` (all other sliders 0, mid-grey pixel)
the claim's unclamped exponent is `1/(1 - 95/100) = 20`, but the code clamps
the denominator at 0.1 and uses exponent `1/0.1 = 10`; with a float library
that returns the exponent the two pipelines disagree. -/
theorem C5_counterexample :
    adjust_pixel F2 0 0 0 0 0 0 0 0 0 (-95) (1/2) (1/2) (1/2) =
        ((10 : ℚ), (10 : ℚ), (10 : ℚ)) ∧
      claimed_pipeline F2 0 0 0 0 0 0 0 0 0 (-95) (1/2, 1/2, 1/2) =
        ((20 : ℚ), (20 : ℚ), (20 : ℚ)) ∧
      ((10 : ℚ), (10 : ℚ), (10 : ℚ)) ≠ ((20 : ℚ), (20 : ℚ), (20 : ℚ)) := by
  refine ⟨?_, ?_, ?_⟩
  · norm_num [adjust_pixel, F2]
  · norm_num [claimed_pipeline, stage_gamma_claimed, stage_highlights_shadows,
      stage_vibrance, stage_saturation, stage_contrast, stage_brightness,
      stage_temp_tint, stage_exposure, pivot_scale, lumQ, F2]
  · intro h
    exact absurd (congrArg Prod.fst h) (by norm_num)

/-! ### C6 — neutral defaults under real `f32` arithmetic -/

/-- Round a rational to the nearest integer, ties to even. -/
def roundEvenInt (q : ℚ) : ℤ :=
  let n := ⌊q⌋
  if q - n < 1/2 then n
  else if 1/2 < q - n then n + 1
  else if Even n then n else n + 1

/-- IEEE-754 binary32 rounding (round to nearest, ties to even): snap a
rational to the nearest value with a 24-bit significand, with the exponent
floored at -126 (subnormal range). Overflow to infinity is not modelled —
every value in this development stays below 2^127. -/
def rnd32 (x : ℚ) : ℚ :=
  if x = 0 then 0
  else
    let e : ℤ := max (Int.log 2 |x|) (-126)
    roundEvenInt (x / 2 ^ (e - 23)) * 2 ^ (e - 23)

/-- Rust `as u8` on a nonnegative `f32`: saturating truncation toward zero. -/
def u8_of_f32 (x : ℚ) : ℕ := (⌊min (max x 0) 255⌋).toNat

lemma rnd32_zero : rnd32 0 = 0 := by simp [rnd32]

lemma roundEvenInt_lt (q : ℚ) (n : ℤ) (h1 : (n : ℚ) ≤ q) (h2 : q < (n : ℚ) + 1/2) :
    roundEvenInt q = n := by
  have hf : ⌊q⌋ = n := Int.floor_eq_iff.mpr ⟨h1, by push_cast; linarith⟩
  unfold roundEvenInt
  rw [hf, if_pos (by push_cast; linarith)]

lemma roundEvenInt_gt (q : ℚ) (n : ℤ) (h1 : (n : ℚ) + 1/2 < q) (h2 : q < (n : ℚ) + 1) :
    roundEvenInt q = n + 1 := by
  have hf : ⌊q⌋ = n := Int.floor_eq_iff.mpr ⟨by linarith, by push_cast; linarith⟩
  unfold roundEvenInt
  rw [hf, if_neg (by push_cast; linarith), if_pos (by push_cast; linarith)]

lemma roundEvenInt_tie_odd (q : ℚ) (n : ℤ) (h1 : q = (n : ℚ) + 1/2) (h2 : ¬ Even n) :
    roundEvenInt q = n + 1 := by
  have hf : ⌊q⌋ = n := Int.floor_eq_iff.mpr ⟨by rw [h1]; linarith, by rw [h1]; push_cast; linarith⟩
  unfold roundEvenInt
  rw [hf, if_neg (by rw [h1]; push_cast; linarith), if_neg (by rw [h1]; push_cast; linarith),
    if_neg h2]

lemma rnd32_eval (x : ℚ) (e n : ℤ) (hx : x ≠ 0) (he : (-126 : ℤ) ≤ e)
    (h1 : (2 : ℚ) ^ e ≤ |x|) (h2 : |x| < (2 : ℚ) ^ (e + 1))
    (hn : roundEvenInt (x / (2 : ℚ) ^ (e - 23)) = n) :
    rnd32 x = (n : ℚ) * (2 : ℚ) ^ (e - 23) := by
  have hpos : (0 : ℚ) < |x| := abs_pos.mpr hx
  have hb : (1 : ℕ) < 2 := one_lt_two
  have hle : e ≤ Int.log 2 |x| :=
    (Int.zpow_le_iff_le_log hb hpos).mp (by exact_mod_cast h1)
  have hlt : Int.log 2 |x| < e + 1 :=
    (Int.lt_zpow_iff_log_lt hb hpos).mp (by exact_mod_cast h2)
  have hmax : max (Int.log 2 |x|) (-126) = e := by omega
  unfold rnd32
  rw [if_neg hx, hmax]
  dsimp only
  rw [hn]

/-- The binary32 value `fl(0.299)` of the red luma weight. -/
lemma ev_c299 : rnd32 (299/1000) = 10032775/33554432 := by
  rw [rnd32_eval (299/1000) (-2) 10032775 (by norm_num) (by norm_num)
    (by rw [abs_of_pos (by norm_num)]; norm_num)
    (by rw [abs_of_pos (by norm_num)]; norm_num)
    (roundEvenInt_lt _ 10032775 (by norm_num) (by norm_num))]
  norm_num

/-- The binary32 value `fl(0.587)` of the green luma weight. -/
lemma ev_c587 : rnd32 (587/1000) = 4924113/8388608 := by
  rw [rnd32_eval (587/1000) (-1) 9848226 (by norm_num) (by norm_num)
    (by rw [abs_of_pos (by norm_num)]; norm_num)
    (by rw [abs_of_pos (by norm_num)]; norm_num)
    (by rw [roundEvenInt_gt _ 9848225 (by norm_num) (by norm_num)]; norm_num)]
  norm_num

/-- The binary32 value `fl(0.114)` of the blue luma weight. -/
lemma ev_c114 : rnd32 (57/500) = 15300821/134217728 := by
  rw [rnd32_eval (57/500) (-4) 15300821 (by norm_num) (by norm_num)
    (by rw [abs_of_pos (by norm_num)]; norm_num)
    (by rw [abs_of_pos (by norm_num)]; norm_num)
    (by rw [roundEvenInt_gt _ 15300820 (by norm_num) (by norm_num)]; norm_num)]
  norm_num

/-- Byte value 1 renormalized: `fl(1/255)` is already inexact. -/
lemma ev_v0 : rnd32 (1/255) = 8421505/2147483648 := by
  rw [rnd32_eval (1/255) (-8) 8421505 (by norm_num) (by norm_num)
    (by rw [abs_of_pos (by norm_num)]; norm_num)
    (by rw [abs_of_pos (by norm_num)]; norm_num)
    (by rw [roundEvenInt_gt _ 8421504 (by norm_num) (by norm_num)]; norm_num)]
  norm_num

/-- `fl(1/255)` is representable: rounding it again is the identity. -/
lemma ev_v0id : rnd32 (8421505/2147483648) = 8421505/2147483648 := by
  rw [rnd32_eval (8421505/2147483648) (-8) 8421505 (by norm_num) (by norm_num)
    (by rw [abs_of_pos (by norm_num)]; norm_num)
    (by rw [abs_of_pos (by norm_num)]; norm_num)
    (roundEvenInt_lt _ 8421505 (by norm_num) (by norm_num))]
  norm_num

/-- The contrast subtraction `fl(1/255) - 0.5` rounds (30 significant bits
into 24): this is where the identity first breaks. -/
lemma ev_s1 : rnd32 (-(1065320319/2147483648)) = -(8322815/16777216) := by
  rw [rnd32_eval (-(1065320319/2147483648)) (-2) (-16645630) (by norm_num) (by norm_num)
    (by rw [abs_of_neg (by norm_num)]; norm_num)
    (by rw [abs_of_neg (by norm_num)]; norm_num)
    (roundEvenInt_lt _ (-16645630) (by norm_num) (by norm_num))]
  norm_num

/-- The rounded contrast intermediate is representable. -/
lemma ev_s1id : rnd32 (-(8322815/16777216)) = -(8322815/16777216) := by
  rw [rnd32_eval (-(8322815/16777216)) (-2) (-16645630) (by norm_num) (by norm_num)
    (by rw [abs_of_neg (by norm_num)]; norm_num)
    (by rw [abs_of_neg (by norm_num)]; norm_num)
    (roundEvenInt_lt _ (-16645630) (by norm_num) (by norm_num))]
  norm_num

/-- The post-contrast channel value `fl(fl(1/255) - 0.5) + 0.5` is exact and
representable: one ulp below `fl(1/255)`. -/
lemma ev_v1id : rnd32 (65793/16777216) = 65793/16777216 := by
  rw [rnd32_eval (65793/16777216) (-8) 8421504 (by norm_num) (by norm_num)
    (by rw [abs_of_pos (by norm_num)]; norm_num)
    (by rw [abs_of_pos (by norm_num)]; norm_num)
    (roundEvenInt_lt _ 8421504 (by norm_num) (by norm_num))]
  norm_num

/-- First luminance product `fl(fl(0.299) * v1)`. -/
lemma ev_t1 : rnd32 (660086365575/562949953421312) = 10072119/8589934592 := by
  rw [rnd32_eval (660086365575/562949953421312) (-10) 10072119 (by norm_num) (by norm_num)
    (by rw [abs_of_pos (by norm_num)]; norm_num)
    (by rw [abs_of_pos (by norm_num)]; norm_num)
    (by rw [roundEvenInt_gt _ 10072118 (by norm_num) (by norm_num)]; norm_num)]
  norm_num

/-- Second luminance product `fl(fl(0.587) * v1)`. -/
lemma ev_t2 : rnd32 (323972166609/140737488355328) = 4943423/2147483648 := by
  rw [rnd32_eval (323972166609/140737488355328) (-9) 9886846 (by norm_num) (by norm_num)
    (by rw [abs_of_pos (by norm_num)]; norm_num)
    (by rw [abs_of_pos (by norm_num)]; norm_num)
    (by rw [roundEvenInt_gt _ 9886845 (by norm_num) (by norm_num)]; norm_num)]
  norm_num

/-- Third luminance product `fl(fl(0.114) * v1)`. -/
lemma ev_t3 : rnd32 (1006686916053/2251799813685248) = 15360823/34359738368 := by
  rw [rnd32_eval (1006686916053/2251799813685248) (-12) 15360823 (by norm_num) (by norm_num)
    (by rw [abs_of_pos (by norm_num)]; norm_num)
    (by rw [abs_of_pos (by norm_num)]; norm_num)
    (roundEvenInt_lt _ 15360823 (by norm_num) (by norm_num))]
  norm_num

/-- The first luminance addition lands exactly on a tie and rounds to even. -/
lemma ev_t12 : rnd32 (29845811/8589934592) = 7461453/2147483648 := by
  rw [rnd32_eval (29845811/8589934592) (-9) 14922906 (by norm_num) (by norm_num)
    (by rw [abs_of_pos (by norm_num)]; norm_num)
    (by rw [abs_of_pos (by norm_num)]; norm_num)
    (by rw [roundEvenInt_tie_odd _ 14922905 (by norm_num) (by decide)]; norm_num)]
  norm_num

/-- The final luminance: it rounds back to exactly the channel value `v1`,
so the saturation and vibrance stages are exact no-ops on this pixel. -/
lemma ev_lum : rnd32 (134744071/34359738368) = 65793/16777216 := by
  rw [rnd32_eval (134744071/34359738368) (-8) 8421504 (by norm_num) (by norm_num)
    (by rw [abs_of_pos (by norm_num)]; norm_num)
    (by rw [abs_of_pos (by norm_num)]; norm_num)
    (roundEvenInt_lt _ 8421504 (by norm_num) (by norm_num))]
  norm_num

/-- One is representable. -/
lemma ev_one : rnd32 1 = 1 := by
  rw [rnd32_eval 1 0 8388608 (by norm_num) (by norm_num)
    (by rw [abs_of_pos (by norm_num)]; norm_num)
    (by rw [abs_of_pos (by norm_num)]; norm_num)
    (roundEvenInt_lt _ 8388608 (by norm_num) (by norm_num))]
  norm_num

/-- The requantization product `fl(v1 * 255) = 16777215/2^24` is exact, just below 1. -/
lemma ev_out : rnd32 (16777215/16777216) = 16777215/16777216 := by
  rw [rnd32_eval (16777215/16777216) (-1) 16777215 (by norm_num) (by norm_num)
    (by rw [abs_of_pos (by norm_num)]; norm_num)
    (by rw [abs_of_pos (by norm_num)]; norm_num)
    (roundEvenInt_lt _ 16777215 (by norm_num) (by norm_num))]
  norm_num

/-- The store `(0.99999994_f32) as u8` truncates to 0. -/
lemma ev_byte : u8_of_f32 (16777215/16777216) = 0 := by
  unfold u8_of_f32
  have h : ⌊min (max (16777215/16777216 : ℚ) 0) 255⌋ = 0 := by
    rw [Int.floor_eq_iff]
    constructor <;> norm_num [max_def, min_def]
  rw [h]
  rfl

/-- One `chunks_exact_mut(4)` iteration of `apply_adjustments`
(`src/executor.rs` lines 289-352) at the neutral slider values (all ten
parameters 0), under IEEE-754 binary32 semantics: every `f32` arithmetic
operation rounds its exact result through `rnd32`. The parameter setup of
lines 280-287 is exact at the defaults: `brightness_factor = 0/100 = 0`,
`contrast_factor = 1 + 0/100 = 1`, `saturation_factor = 1`,
`exposure_factor = exp2(0/50) = 1` (IEEE `exp2` is exact at 0),
`gamma_value = 1 / max (1 + 0/100) 0.1 = 1`, `temp_shift = tint_shift =
vibrance_factor = 0`; IEEE `powf x 1 = x` makes the gamma stage `max x 0`.
Takes the three colour bytes of one pixel, returns the stored bytes. -/
def adjust_pixel32_neutral (rb gb bb : ℕ) : ℕ × ℕ × ℕ :=
  let r0 := rnd32 ((rb : ℚ) / 255)
  let g0 := rnd32 ((gb : ℚ) / 255)
  let b0 := rnd32 ((bb : ℚ) / 255)
  let r1 := rnd32 (r0 * 1)
  let g1 := rnd32 (g0 * 1)
  let b1 := rnd32 (b0 * 1)
  let r2 := rnd32 (r1 + rnd32 (0 * rnd32 (1/10)))
  let b2 := rnd32 (b1 - rnd32 (0 * rnd32 (1/10)))
  let g2 := rnd32 (g1 + rnd32 (0 * rnd32 (1/20)))
  let r3 := rnd32 (r2 + 0)
  let g3 := rnd32 (g2 + 0)
  let b3 := rnd32 (b2 + 0)
  let r4 := rnd32 (rnd32 (rnd32 (r3 - 1/2) * 1) + 1/2)
  let g4 := rnd32 (rnd32 (rnd32 (g3 - 1/2) * 1) + 1/2)
  let b4 := rnd32 (rnd32 (rnd32 (b3 - 1/2) * 1) + 1/2)
  let lum := rnd32 (rnd32 (rnd32 (rnd32 (299/1000) * r4) +
    rnd32 (rnd32 (587/1000) * g4)) + rnd32 (rnd32 (114/1000) * b4))
  let r5 := rnd32 (lum + rnd32 (rnd32 (r4 - lum) * 1))
  let g5 := rnd32 (lum + rnd32 (rnd32 (g4 - lum) * 1))
  let b5 := rnd32 (lum + rnd32 (rnd32 (b4 - lum) * 1))
  let max_rgb := max (max r5 g5) b5
  let min_rgb := min (min r5 g5) b5
  let current_sat := if 0 < max_rgb then rnd32 (rnd32 (max_rgb - min_rgb) / max_rgb) else 0
  let vib_mult := rnd32 (1 + rnd32 (0 * rnd32 (1 - current_sat)))
  let r6 := rnd32 (lum + rnd32 (rnd32 (r5 - lum) * vib_mult))
  let g6 := rnd32 (lum + rnd32 (rnd32 (g5 - lum) * vib_mult))
  let b6 := rnd32 (lum + rnd32 (rnd32 (b5 - lum) * vib_mult))
  let hs_factor := if 1/2 < lum
    then rnd32 (rnd32 (rnd32 (lum - 1/2) * 2) * rnd32 (0/200))
    else rnd32 (rnd32 (rnd32 (1/2 - lum) * 2) * rnd32 (0/200))
  let r7 := rnd32 (r6 + hs_factor)
  let g7 := rnd32 (g6 + hs_factor)
  let b7 := rnd32 (b6 + hs_factor)
  let r8 := max r7 0
  let g8 := max g7 0
  let b8 := max b7 0
  (u8_of_f32 (rnd32 (min (max r8 0) 1 * 255)),
   u8_of_f32 (rnd32 (min (max g8 0) 1 * 255)),
   u8_of_f32 (rnd32 (min (max b8 0) 1 * 255)))

/-- C6 is false of the real program: with every slider at its neutral
default, the `f32` Adjust kernel maps the pixel bytes (1,1,1) to (0,0,0).
`fl(1/255) - 0.5` rounds away the low bits, `+ 0.5` leaves the channel one
ulp short, and the final `* 255.0 as u8` truncates `0.99999994` to 0 — so
the neutral transform is not the identity on pixel bytes. -/
theorem C6_f32_not_identity :
    adjust_pixel32_neutral 1 1 1 = (0, 0, 0) ∧
      ((0, 0, 0) : ℕ × ℕ × ℕ) ≠ (1, 1, 1) := by
  refine ⟨?_, by decide⟩
  unfold adjust_pixel32_neutral
  norm_num [ev_c299, ev_c587, ev_c114, ev_v0, ev_v0id, ev_s1, ev_s1id, ev_v1id,
    ev_t1, ev_t2, ev_t3, ev_t12, ev_lum, ev_one, ev_out, ev_byte, rnd32_zero,
    max_def, min_def]
